import Mathlib

/-!
Verification development for the Agents_Q plan-execution engine.

The definitions below are a shallow embedding of the dependency-resolution
scheduler in `app/enhanced_workflow.py` (`EnhancedWorkflow.execute_plan`,
`_execute_single_step` is external, `_generate_final_report`), of the plan
validation in `EnhancedWorkflow.create_plan`, and of the persistence layer in
`app/workflow_repository.py` (`save_workflow_state`), over the data model of
`app/models.py` (`Task`, `TasksOutput`, `WorkflowState`).

Modelling conventions:
- Python dicts are insertion-ordered association lists; `setA` is
  `d[k] = v` (update the existing binding in place, else append).
- Python sets of task ids (`completed_tasks`, `failed_tasks`) are
  insertion-ordered duplicate-free lists; `addSet` is `s.add(x)`.
  (CPython iterates a set in hash order; the one place iteration order is
  observable, `', '.join(failed_tasks)`, is modelled with insertion order.)
- The executor gateway (`asyncio.create_task(self._execute_single_step ...)` and
  `asyncio.wait(..., timeout=60)`) is modelled by a per-round oracle: the list
  of invocations that finished inside the wait window together with their
  outcome (`result()` value or raised error); every other in-flight invocation
  is in the `pending` set of `asyncio.wait`, i.e. it timed out this round.
- Side effects are recorded as a trace of events: `save_workflow_state` calls
  (with the state snapshot passed), `on_update` callbacks (with the message),
  task dispatches (`asyncio.create_task`, with the status map at dispatch
  time as a ghost snapshot), and `task.cancel()` requests.  The socketio
  artifact emissions and logging calls touch no scheduler state and are not
  modelled.  The filesystem read for a final `file_artifact` result is the
  `fs` parameter.
- The database (`workflow_repository.save_workflow_state`) is modelled
  separately: the scheduler never reads the store after the initial load and
  discards the boolean returned by every save call (e.g. line 144, 174, 205,
  236, 280, 366 of enhanced_workflow.py), so the store contents are obtained
  by replaying the save events against a commit oracle.
-/

namespace AgentsQ

/-! ### Association-list and set helpers (Python dict / set semantics) -/

/-- `d[k] = v` on an insertion-ordered dict: update the first binding of `k`
in place, else append at the end. -/
def setA {α : Type} : List (String × α) → String → α → List (String × α)
  | [], k, v => [(k, v)]
  | (k', v') :: t, k, v =>
    if k' = k then (k, v) :: t else (k', v') :: setA t k v

/-- `s.add(x)` on an insertion-ordered duplicate-free list. -/
def addSet (l : List String) (x : String) : List String :=
  if x ∈ l then l else l ++ [x]

/-- Pointwise rewriting of the values of a status dict (used for the
resume-reset of `running` statuses and the stall-detector's force-fail of
`pending` statuses, both of which rewrite values during a plain iteration). -/
def mapVal (f : String → String) (l : List (String × String)) : List (String × String) :=
  l.map (fun p => (p.1, f p.2))

/-! ### Data model (`app/models.py`) -/

/-- `models.Task`. -/
structure Task where
  id : String
  title : String
  description : String
  dependencies : List String
  agent_role : String
deriving Repr, DecidableEq

/-- `models.TasksOutput`. -/
structure TasksOutput where
  tasks : List Task
  summary : String
deriving Repr, DecidableEq

/-- An opaque task result (`workflow.steps_results` values): the
`result.final_output` of an agent run is a plain string, a
`{'type': 'file_artifact', 'filename': ...}` dict (with or without the
filename key), or some other object rendered through `str(...)`. -/
inductive Output where
  | ostr (s : String)
  | oartifact (filename : String)
  | oartifactNoName
  | oother (s : String)
deriving Repr, DecidableEq

/-- The `str(...)` / f-string rendering of an output value. -/
def Output.toText : Output → String
  | Output.ostr s => s
  | Output.oartifact f => "\x7b'type': 'file_artifact', 'filename': '" ++ f ++ "'\x7d"
  | Output.oartifactNoName => "\x7b'type': 'file_artifact'\x7d"
  | Output.oother s => s

/-- `models.WorkflowState`. -/
structure WorkflowState where
  session_id : String
  user_query : Option String := none
  plan : Option TasksOutput := none
  accepted_plan : Bool := false
  steps_results : List (String × Output) := []
  step_statuses : List (String × String) := []
  status : String := "pending"
  updates : List String := []
  final_result : Option String := none
deriving Repr, DecidableEq

/-! ### Status constants (`enhanced_workflow.py` lines 22-27) -/

def STATUS_PENDING : String := "pending"
def STATUS_RUNNING : String := "running"
def STATUS_COMPLETED : String := "completed"
def STATUS_FAILED : String := "failed"
def STATUS_SKIPPED : String := "skipped"

/-! ### Scheduler state, events, and the executor oracle -/

/-- Outcome of one executor invocation that finished inside the harvest wait
window: `success o` is `async_task_done.result().final_output = o`, and
`failure err` is `result()` raising an exception rendered as `err`. -/
inductive ExecOutcome where
  | success (o : Output)
  | failure (err : String)
deriving Repr, DecidableEq

/-- Observable side effects, in program order.  `dispatch` records the status
map at dispatch time as a ghost snapshot; `saveEv` records the state passed to
`save_workflow_state`; `cb` records the message passed to `on_update`;
`cancelEv` records an `async_task.cancel()` request. -/
inductive Event where
  | saveEv (w : WorkflowState)
  | cb (msg : String)
  | dispatch (tid : String) (snap : List (String × String))
  | cancelEv (tid : String)
deriving Repr, DecidableEq

/-- The local state of `execute_plan`: the in-memory `workflow` object, the
`completed_tasks` / `failed_tasks` sets, the keys of `running_async_tasks`,
the emitted event trace, and whether the stall detector broke the loop. -/
structure Exec where
  wf : WorkflowState
  completedL : List String
  failedL : List String
  runningM : List String
  events : List Event
  stalled : Bool
deriving Repr, DecidableEq

def emitSave (e : Exec) : Exec :=
  { e with events := e.events ++ [Event.saveEv e.wf] }

def emitCb (e : Exec) (m : String) : Exec :=
  { e with events := e.events ++ [Event.cb m] }

/-- `tasks_map = {task.id: task for task in plan.tasks}` (line 116). -/
def tasksMapOf (ts : List Task) : List (String × Task) :=
  ts.foldl (fun m t => setA m t.id t) []

/-- The dependency list of a task id under a task map (empty when absent). -/
def depsOf (tm : List (String × Task)) (tid : String) : List String :=
  match List.lookup tid tm with
  | some t => t.dependencies
  | none => []

/-- `tasks_map[task_id].title`; total here, but only ever applied to ids that
are keys of the map (as in the source, where a missing key would throw). -/
def titleOf (tm : List (String × Task)) (tid : String) : String :=
  match List.lookup tid tm with
  | some t => t.title
  | none => tid

/-! ### The main loop of `execute_plan` (lines 159-299) -/

/-- Readiness pass (lines 160-175): walk `tasks_map.items()` in order; a
`pending` task with all dependencies in `completed_tasks` becomes ready; a
`pending` task with some dependency in `failed_tasks` is skipped (status
`skipped`, update-log entry, added to `failed_tasks`, save, callback). -/
def readyPass : List (String × Task) → Exec → List String → Exec × List String
  | [], e, ready => (e, ready)
  | (tid, tob) :: rest, e, ready =>
    if List.lookup tid e.wf.step_statuses = some STATUS_PENDING then
      if tob.dependencies.all (fun d => decide (d ∈ e.completedL)) then
        readyPass rest e (ready ++ [tid])
      else if tob.dependencies.any (fun d => decide (d ∈ e.failedL)) then
        let wf1 := { e.wf with
          step_statuses := setA e.wf.step_statuses tid STATUS_SKIPPED,
          updates := e.wf.updates ++
            ["Skipped task " ++ tob.title ++ " (ID: " ++ tid ++ ") due to failed dependency."] }
        let e1 := { e with wf := wf1, failedL := addSet e.failedL tid }
        readyPass rest (emitCb (emitSave e1) ("Task '" ++ tob.title ++ "' skipped")) ready
      else
        readyPass rest e ready
    else
      readyPass rest e ready

/-- Ids whose status is `pending`, in dict order (stall handling, line 184). -/
def pendingIdsOf (statuses : List (String × String)) : List String :=
  statuses.filterMap (fun p => if p.2 = STATUS_PENDING then some p.1 else none)

/-- The body of the stall branch (lines 181-193): force-fail every pending
task, set the overall status to `failed`, append the stall message, save,
fire the callback and flag the loop break. -/
def stallApply (total : Nat) (e : Exec) : Exec :=
  let pc : Nat := total - e.completedL.length - e.failedL.length
  let pends := pendingIdsOf e.wf.step_statuses
  let msg := "Workflow stalled: " ++ toString pc ++
    " tasks pending but none are ready and no tasks running."
  let wf1 := { e.wf with
    step_statuses :=
      mapVal (fun s => if s = STATUS_PENDING then STATUS_FAILED else s) e.wf.step_statuses,
    status := STATUS_FAILED,
    updates := e.wf.updates ++ [msg] }
  let e1 := { e with wf := wf1, failedL := pends.foldl addSet e.failedL, stalled := true }
  emitCb (emitSave e1) msg

/-- Stall detection (lines 177-196): if nothing is ready and nothing is in
flight but tasks remain pending, apply the stall branch. -/
def stallCheck (total : Nat) (ready : List String) (e : Exec) : Exec :=
  if ready = [] ∧ e.runningM = [] then
    if 0 < total - e.completedL.length - e.failedL.length then stallApply total e
    else e
  else e

/-- Launch pass (lines 199-212): each ready task not already in flight is
marked `running` (update-log entry, save, callback) and dispatched. -/
def launchPass (tm : List (String × Task)) : List String → Exec → Exec
  | [], e => e
  | tid :: rest, e =>
    if tid ∈ e.runningM then launchPass tm rest e
    else
      let title := titleOf tm tid
      let wf1 := { e.wf with
        step_statuses := setA e.wf.step_statuses tid STATUS_RUNNING,
        updates := e.wf.updates ++ ["Starting task: " ++ title ++ " (ID: " ++ tid ++ ")"] }
      let e1 := emitCb (emitSave { e with wf := wf1 }) ("Starting task '" ++ title ++ "'")
      let e2 := { e1 with
        events := e1.events ++ [Event.dispatch tid e1.wf.step_statuses],
        runningM := e1.runningM ++ [tid] }
      launchPass tm rest e2

/-- One finished invocation (lines 217-285): on success the result is stored,
the task marked `completed`, added to `completed_tasks`, save, callback; on a
raised error the task is marked `failed`, added to `failed_tasks`, save,
callback; either way the task leaves `running_async_tasks`.  A finished
invocation whose task id is no longer tracked is skipped (lines 219-221). -/
def handleDone (tm : List (String × Task)) (e : Exec) (tid : String) (oc : ExecOutcome) : Exec :=
  if tid ∈ e.runningM then
    match oc with
    | ExecOutcome.success o =>
      let title := titleOf tm tid
      let wf1 := { e.wf with
        steps_results := setA e.wf.steps_results tid o,
        step_statuses := setA e.wf.step_statuses tid STATUS_COMPLETED,
        updates := e.wf.updates ++
          ["Completed task: " ++ title ++ " (ID: " ++ tid ++ ")"] }
      let e1 := { e with wf := wf1, completedL := addSet e.completedL tid }
      let e2 := emitCb (emitSave e1)
        ("Completed task: " ++ title ++ " (ID: " ++ tid.take 10 ++ "...)")
      { e2 with runningM := e2.runningM.erase tid }
    | ExecOutcome.failure err =>
      let title := titleOf tm tid
      let wf1 := { e.wf with
        step_statuses := setA e.wf.step_statuses tid STATUS_FAILED,
        updates := e.wf.updates ++
          ["Failed task: " ++ title ++ " (ID: " ++ tid ++ ") - Error: " ++ err] }
      let e1 := { e with wf := wf1, failedL := addSet e.failedL tid }
      let e2 := emitCb (emitSave e1) ("Failed task '" ++ title ++ "' - Error: " ++ err)
      { e2 with runningM := e2.runningM.erase tid }
  else e

def doneFold (tm : List (String × Task)) : List (String × ExecOutcome) → Exec → Exec
  | [], e => e
  | (tid, oc) :: rest, e => doneFold tm rest (handleDone tm e tid oc)

/-- One timed-out invocation (lines 290-299): the task is marked `failed`,
added to `failed_tasks`, an update-log entry appended, the callback fired and
cancellation requested.  Note: no `save_workflow_state` call in this branch,
and the task is NOT removed from `running_async_tasks`. -/
def timeoutOne (tm : List (String × Task)) (e : Exec) (tid : String) : Exec :=
  let title := titleOf tm tid
  let wf1 := { e.wf with
    step_statuses := setA e.wf.step_statuses tid STATUS_FAILED,
    updates := e.wf.updates ++
      ["Failed task (timeout): " ++ title ++ " (ID: " ++ tid ++ ")"] }
  let e1 := { e with wf := wf1, failedL := addSet e.failedL tid }
  let e2 := emitCb e1 ("Failed task '" ++ title ++ "' (timeout)")
  { e2 with events := e2.events ++ [Event.cancelEv tid] }

def timeoutFold (tm : List (String × Task)) : List String → Exec → Exec
  | [], e => e
  | tid :: rest, e => timeoutFold tm rest (timeoutOne tm e tid)

/-- Harvest step (lines 214-299): when something is in flight,
`asyncio.wait(..., timeout=60)` splits the in-flight invocations into the
finished ones (the oracle entries whose id is tracked) and the rest, which
timed out this round.  The finished ones are processed in oracle order, then
every invocation still tracked is handled as a timeout. -/
def harvest (tm : List (String × Task)) (orc : List (String × ExecOutcome)) (e : Exec) : Exec :=
  if e.runningM = [] then e
  else
    let donePart := orc.filter (fun p => decide (p.1 ∈ e.runningM))
    let e1 := doneFold tm donePart e
    timeoutFold tm e1.runningM e1

/-- One iteration of the `while` loop (lines 159-299). -/
def round (tm : List (String × Task)) (total : Nat) (orc : List (String × ExecOutcome))
    (e : Exec) : Exec :=
  let pr := readyPass tm e []
  let e1 := stallCheck total pr.2 pr.1
  if e1.stalled then e1
  else harvest tm orc (launchPass tm pr.2 e1)

/-- `while len(completed_tasks) + len(failed_tasks) < total_tasks` (line 159). -/
def loopCond (total : Nat) (e : Exec) : Bool :=
  decide (e.completedL.length + e.failedL.length < total)

/-- Driving the loop with a list of per-round oracles; stops at the loop
condition or at a stall break (and when the oracle list runs out, in which
case the run is incomplete: see `Ended`). -/
def execRounds (tm : List (String × Task)) (total : Nat) :
    List (List (String × ExecOutcome)) → Exec → Exec
  | [], e => e
  | orc :: rest, e =>
    if e.stalled then e
    else if loopCond total e then execRounds tm total rest (round tm total orc e)
    else e

/-- The main loop has genuinely terminated: the stall detector broke out, or
the loop condition is false. -/
def Ended (total : Nat) (e : Exec) : Prop :=
  e.stalled = true ∨ loopCond total e = false

/-! ### Result synthesis (lines 301-399 and `_generate_final_report`) -/

/-- `_generate_final_report` (lines 450-479). -/
def generate_final_report (tasks : List Task) (results : List (String × Output))
    (statuses : List (String × String)) : String :=
  let part1 := "Workflow Execution Summary:\n\nTask Statuses:\n" ++
    String.join (tasks.map (fun t =>
      "- " ++ t.title ++ " (ID: " ++ t.id ++ "): " ++
        ((List.lookup t.id statuses).getD "Unknown") ++ "\n"))
  let part2 := "\nCompleted Task Results:\n" ++
    String.join (results.map (fun p =>
      let title := ((tasks.find? (fun t => t.id == p.1)).map Task.title).getD p.1
      "--- Result for '" ++ title ++ "' (ID: " ++ p.1 ++ ") ---\n" ++
        p.2.toText ++ "\n\n"))
  let part3 := if results = [] then "No task results were successfully recorded.\n" else ""
  part1 ++ part2 ++ part3

/-- The well-known id of the synthesis task (line 307). -/
def synthId : String := "synthesize_final_report"

/-- The instance folder path used when resolving a `file_artifact` result
(lines 149-150; the absolute prefix is environment-specific and irrelevant to
the properties proved here). -/
def instanceFolder : String := "instance"

/-- Extracting the final result from the synthesis task's stored output
(lines 308-353): plain text is taken as is, a `file_artifact` dict is
resolved against the filesystem (with bracketed placeholder messages when the
file or the filename is missing), anything else goes through `str(...)`. -/
def resolveFinal (fs : String → Option String) : Output → String
  | Output.ostr s => s
  | Output.oartifact f =>
    match fs f with
    | some content => content
    | none => "[Final report file '" ++ f ++ "' not found at expected location: " ++
        instanceFolder ++ "/" ++ f ++ "]"
  | Output.oartifactNoName => "[Synthesizer indicated a file artifact but filename was missing.]"
  | Output.oother s => s

/-- Final workflow result handling (lines 301-367): the overall status is
`failed` iff `failed_tasks` is nonempty; on `completed` with a stored
synthesis result that result is resolved, on `completed` without one the
basic summary is generated, otherwise the terse failure message listing
`failed_tasks` is produced; then the final update is appended, the state
saved and the callback fired. -/
def finalize (fs : String → Option String) (tm : List (String × Task)) (e : Exec) : Exec :=
  let finalStatus := if e.failedL = [] then STATUS_COMPLETED else STATUS_FAILED
  let sid := e.wf.session_id
  let eA : Exec := { e with wf := { e.wf with status := finalStatus } }
  let pick : String × String :=
    if finalStatus = STATUS_COMPLETED then
      match List.lookup synthId eA.wf.steps_results with
      | some o => (resolveFinal fs o, "Workflow " ++ sid ++ " completed successfully.")
      | none =>
        (generate_final_report (tm.map Prod.snd) eA.wf.steps_results eA.wf.step_statuses,
         "Workflow " ++ sid ++ " completed, but final synthesis might be missing. Generated basic summary.")
    else
      ("Workflow failed. See logs for details. Failed tasks: " ++
         String.intercalate ", " e.failedL,
       "Workflow " ++ sid ++ " failed.")
  let wf1 := { eA.wf with final_result := some pick.1, updates := eA.wf.updates ++ [pick.2] }
  emitCb (emitSave { eA with wf := wf1 }) pick.2

/-! ### Entry: `execute_plan` (lines 96-399) -/

/-- Resume handling (lines 128-137): statuses persisted as `running` are
reset to `pending`, everything else is kept. -/
def resetRunningStatuses (l : List (String × String)) : List (String × String) :=
  mapVal (fun s => if s = STATUS_RUNNING then STATUS_PENDING else s) l

/-- `completed_tasks` as rebuilt from the loaded state (lines 128-130). -/
def completedOf (l : List (String × String)) : List String :=
  l.filterMap (fun p => if p.2 = STATUS_COMPLETED then some p.1 else none)

/-- `failed_tasks` as rebuilt from the loaded state: `failed` and `skipped`
both count (lines 131-134). -/
def failedOf (l : List (String × String)) : List String :=
  l.filterMap (fun p => if p.2 = STATUS_FAILED ∨ p.2 = STATUS_SKIPPED then some p.1 else none)

/-- The state of the scheduler just before the main loop: resume handling
(lines 128-137), overall status set to `in_progress`, the initial update
appended, saved and announced (lines 139-145). -/
def initExec (wf0 : WorkflowState) (total : Nat) : Exec :=
  let initMsg := "Starting workflow execution for session " ++ wf0.session_id ++
    " with " ++ toString total ++ " tasks."
  let wf1 := { wf0 with
    step_statuses := resetRunningStatuses wf0.step_statuses,
    status := "in_progress",
    updates := wf0.updates ++ [initMsg] }
  let e0 : Exec := {
    wf := wf1,
    completedL := completedOf wf0.step_statuses,
    failedL := failedOf wf0.step_statuses,
    runningM := [], events := [], stalled := false }
  emitCb (emitSave e0) initMsg

/-- The body of `execute_plan` once the loaded state has an accepted plan
`p`. -/
def execute_planAccepted (fs : String → Option String)
    (orcs : List (List (String × ExecOutcome))) (wf0 : WorkflowState) (p : TasksOutput) :
    Exec × String :=
  let tm := tasksMapOf p.tasks
  let e3 := finalize fs tm (execRounds tm tm.length orcs (initExec wf0 tm.length))
  (e3, (e3.wf.final_result).getD "")

/-- `EnhancedWorkflow.execute_plan`.  `wf0` is the loaded state; `fs` the
instance-folder contents; `orcs` the harvest oracle, one entry per loop
round.  Returns the final `Exec` (whose `wf` is the final in-memory state and
whose `events` is the effect trace) together with the returned string. -/
def execute_plan (fs : String → Option String) (orcs : List (List (String × ExecOutcome)))
    (wf0 : WorkflowState) : Exec × String :=
  match wf0.plan, wf0.accepted_plan with
  | some plan, true => execute_planAccepted fs orcs wf0 plan
  | _, _ =>
    let msg := "Session " ++ wf0.session_id ++ " not found, has no plan, or plan not accepted."
    ({ wf := wf0, completedL := [], failedL := [], runningM := [],
       events := [Event.cb msg], stalled := false },
     "Workflow execution failed: " ++ msg)

/-! ### Plan validation (`create_plan`, lines 57-65) -/

/-- The per-task checks of `create_plan`: a task with an empty id is
rejected, then a task with a dependency outside the plan's id set is
rejected.  (The Python error message embeds the offending dependency list;
only the success/failure outcome matters here.) -/
def validateTasks (ids : List String) : List Task → Except String Unit
  | [] => Except.ok ()
  | t :: rest =>
    if t.id = "" then Except.error "Plan contains task with missing ID."
    else if t.dependencies.any (fun d => decide (d ∉ ids)) then
      Except.error ("Task " ++ t.id ++ " has invalid dependencies.")
    else validateTasks ids rest

/-- The structural validation performed by `create_plan` (lines 57-65): a
missing or empty plan is rejected, then each task is checked by
`validateTasks` against `task_ids = {task.id for task in plan.tasks}`. -/
def validatePlan : Option TasksOutput → Except String Unit
  | none => Except.error "Plan generation failed or produced an empty plan."
  | some p =>
    if p.tasks = [] then Except.error "Plan generation failed or produced an empty plan."
    else validateTasks (p.tasks.map Task.id) p.tasks

/-! ### Persistence (`workflow_repository.save_workflow_state`, lines 54-79) -/

/-- The database, keyed by session id. -/
abbrev Store := List (String × WorkflowState)

/-- `save_workflow_state`: all fields of the row are assigned and then
`db.session.commit()` runs; on any exception `db.session.rollback()` restores
the previous row, so from the caller's point of view the save either installs
the complete new state or leaves the store untouched, and returns the
success flag (which every caller in `execute_plan` discards). -/
def save_workflow_state (commitOk : Bool) (st : Store) (wf : WorkflowState) : Store × Bool :=
  if commitOk then (setA st wf.session_id wf, true) else (st, false)

/-- The state snapshots passed to `save_workflow_state`, in call order. -/
def savesOf (evs : List Event) : List WorkflowState :=
  evs.filterMap (fun ev => match ev with | Event.saveEv w => some w | _ => none)

/-- The callback messages passed to `on_update`, in call order. -/
def cbMsgs (evs : List Event) : List String :=
  evs.filterMap (fun ev => match ev with | Event.cb m => some m | _ => none)

/-- Whether the trace contains a task dispatch. -/
def hasDispatch (evs : List Event) : Bool :=
  evs.any (fun ev => match ev with | Event.dispatch _ _ => true | _ => false)

/-- Replaying the save calls of a run against the store, with a commit
oracle indexed by call number. -/
def replayStore (commitOks : Nat → Bool) (st0 : Store) (ws : List WorkflowState) : Store :=
  (ws.enum).foldl (fun st p => (save_workflow_state (commitOks p.1) st p.2).1) st0

/-- `execute_plan` together with the database produced by its save calls.
The scheduler reads the store only through the initial load (`wf0`) and
discards every save result, so the store evolves as a pure replay of the
emitted save events. -/
def execute_planDB (commitOks : Nat → Bool) (st0 : Store) (fs : String → Option String)
    (orcs : List (List (String × ExecOutcome))) (wf0 : WorkflowState) :
    (Exec × String) × Store :=
  let r := execute_plan fs orcs wf0
  (r, replayStore commitOks st0 (savesOf r.1.events))

/-! ### Dependency reachability -/

/-- `b` is a direct dependency of `a` in the task map. -/
def directDep (tm : List (String × Task)) (a b : String) : Prop :=
  b ∈ depsOf tm a

/-- `DependsOn tm t x`: task `t` transitively depends on task `x`. -/
def DependsOn (tm : List (String × Task)) : String → String → Prop :=
  Relation.TransGen (directDep tm)

/-- The kind of an event, for stating trace shapes. -/
inductive ETag where
  | save
  | cb
  | dispatch
  | cancel
deriving Repr, DecidableEq

def eventTag : Event → ETag
  | Event.saveEv _ => ETag.save
  | Event.cb _ => ETag.cb
  | Event.dispatch _ _ => ETag.dispatch
  | Event.cancelEv _ => ETag.cancel

/-! ### Invariant predicates used in the statements -/

/-- Every task whose status is `completed` has a stored result (stated over
the entries of the status dict, so it is decidable on concrete states). -/
abbrev ResultRecorded (w : WorkflowState) : Prop :=
  ∀ q ∈ w.step_statuses, q.2 = STATUS_COMPLETED →
    (List.lookup q.1 w.steps_results).isSome = true

/-- `ResultRecorded` holds of the current in-memory state and of every state
snapshot passed to `save_workflow_state` so far. -/
def ExecResultRecorded (e : Exec) : Prop :=
  ResultRecorded e.wf ∧ ∀ w ∈ savesOf e.events, ResultRecorded w

/-- The event trace of `e'` extends that of `e`: the scheduler only ever
appends to the trace. -/
def EventsExtend (e e' : Exec) : Prop :=
  ∃ tl, e'.events = e.events ++ tl

/-- Every task whose current status is `failed` or `skipped` belongs to the
`failed_tasks` classification set. -/
def ExecFailStat (e : Exec) : Prop :=
  ∀ tid s, List.lookup tid e.wf.step_statuses = some s →
    (s = STATUS_FAILED ∨ s = STATUS_SKIPPED) → tid ∈ e.failedL

/-- Every dispatch event recorded so far carries a status snapshot in which
all dependencies of the dispatched task are `completed`. -/
def DispOk (tm : List (String × Task)) (evs : List Event) : Prop :=
  ∀ ev ∈ evs, ∀ tid snap, ev = Event.dispatch tid snap →
    ∀ d ∈ depsOf tm tid, List.lookup d snap = some STATUS_COMPLETED

/-- The task map binds each of its entries to itself (true of every map
`tasksMapOf` builds, whose keys are duplicate-free). -/
def TmSelf (tm : List (String × Task)) : Prop :=
  ∀ q ∈ tm, List.lookup q.1 tm = some q.2

/-- The core scheduler invariant, maintained by every step of the main loop:
the `completed_tasks` set and the `completed` statuses coincide, `running`
statuses are tracked in `running_async_tasks`, tracked invocations are
duplicate-free, not classified completed, and were launched with all their
dependencies completed, the completed set is closed under dependencies, and
every dispatch so far happened with all dependencies completed. -/
structure Inv (tm : List (String × Task)) (e : Exec) : Prop where
  compStat : ∀ tid ∈ e.completedL,
    List.lookup tid e.wf.step_statuses = some STATUS_COMPLETED
  statComp : ∀ tid, List.lookup tid e.wf.step_statuses = some STATUS_COMPLETED →
    tid ∈ e.completedL
  statRun : ∀ tid, List.lookup tid e.wf.step_statuses = some STATUS_RUNNING →
    tid ∈ e.runningM
  runNodup : e.runningM.Nodup
  runNotComp : ∀ tid ∈ e.runningM, tid ∉ e.completedL
  runDeps : ∀ tid ∈ e.runningM, ∀ d ∈ depsOf tm tid, d ∈ e.completedL
  compClosed : ∀ tid ∈ e.completedL, ∀ d ∈ depsOf tm tid, d ∈ e.completedL
  dispOk : DispOk tm e.events

/-- At round boundaries, every invocation still tracked in
`running_async_tasks` is a timed-out zombie whose status is `failed`. -/
def ZombieFailed (e : Exec) : Prop :=
  ∀ tid ∈ e.runningM, List.lookup tid e.wf.step_statuses = some STATUS_FAILED

/-- Facts the readiness pass guarantees for the ready list it produces. -/
def ReadyFacts (tm : List (String × Task)) (e : Exec) (ready : List String) : Prop :=
  ready.Nodup ∧ ∀ tid ∈ ready,
    List.lookup tid e.wf.step_statuses = some STATUS_PENDING ∧
    ∀ d ∈ depsOf tm tid, d ∈ e.completedL

/-! ### Concrete test fixtures (used by counterexamples and witnesses) -/

def mkTask (i : String) (deps : List String) : Task :=
  { id := i, title := "T" ++ i, description := "d", dependencies := deps, agent_role := "w" }

/-- A freshly accepted session: statuses all `pending` in plan order, no
results, as `workflow_repository.accept_plan` produces (lines 99-117). -/
def freshWf (sid : String) (ts : List Task) : WorkflowState :=
  { session_id := sid, user_query := some "q",
    plan := some { tasks := ts, summary := "s" }, accepted_plan := true,
    steps_results := [], step_statuses := ts.map (fun t => (t.id, STATUS_PENDING)),
    status := "accepted", updates := [], final_result := none }

def noFs : String → Option String := fun _ => none

/-- C1 fixture: Z depends on Y depends on X; the plan lists the chain in
reverse order, X's execution fails. -/
def planC1tasks : List Task := [mkTask "Z" ["Y"], mkTask "Y" ["X"], mkTask "X" []]

def runC1 : Exec × String :=
  execute_plan noFs [[("X", ExecOutcome.failure "boom")], []] (freshWf "s1" planC1tasks)

/-- C3 fixture: A and B independent, C depends on B; A times out in round 1
(classified failed) and then finishes successfully in round 2. -/
def planC3tasks : List Task := [mkTask "A" [], mkTask "B" [], mkTask "C" ["B"]]

def runC3 : Exec × String :=
  execute_plan noFs
    [[("B", ExecOutcome.success (Output.ostr "okB"))],
     [("A", ExecOutcome.success (Output.ostr "okA")),
      ("C", ExecOutcome.success (Output.ostr "okC"))]]
    (freshWf "s3" planC3tasks)

/-- C4 fixture: A fails, B depends on A. -/
def planC4tasks : List Task := [mkTask "A" [], mkTask "B" ["A"]]

def runC4 : Exec × String :=
  execute_plan noFs [[("A", ExecOutcome.failure "boom")], []] (freshWf "s4" planC4tasks)

/-- C6 fixture: two independent tasks, both fail, harvested in reverse plan
order, then the scheduler is re-invoked on the terminal state. -/
def planC6tasks : List Task := [mkTask "A" [], mkTask "B" []]

def runC6first : Exec × String :=
  execute_plan noFs
    [[("B", ExecOutcome.failure "e"), ("A", ExecOutcome.failure "e")]]
    (freshWf "s6" planC6tasks)

def runC6again : Exec × String := execute_plan noFs [] runC6first.1.wf

/-- C8 fixture: a single task that never finishes inside the wait window. -/
def runC8 : Exec × String := execute_plan noFs [[]] (freshWf "s8" [mkTask "A" []])

/-- C9 fixture: one successful task, run against an all-failing and an
all-succeeding commit oracle. -/
def wfC9 : WorkflowState := freshWf "s9" [mkTask "A" []]

def runC9fail : (Exec × String) × Store :=
  execute_planDB (fun _ => false) [] noFs
    [[("A", ExecOutcome.success (Output.ostr "ok"))]] wfC9

def runC9ok : (Exec × String) × Store :=
  execute_planDB (fun _ => true) [] noFs
    [[("A", ExecOutcome.success (Output.ostr "ok"))]] wfC9

/-- C2/C3 witness fixture: A then B (dep A), both succeed. -/
def planW2tasks : List Task := [mkTask "A" [], mkTask "B" ["A"]]

def runW2 : Exec × String :=
  execute_plan noFs
    [[("A", ExecOutcome.success (Output.ostr "ra"))],
     [("B", ExecOutcome.success (Output.ostr "rb"))]]
    (freshWf "w2" planW2tasks)

/-- C5 witness fixture: a resumed session with one task of each status. -/
def planC5 : TasksOutput :=
  { tasks := [mkTask "R" [], mkTask "C" [], mkTask "F" [], mkTask "S" [], mkTask "P" []],
    summary := "s" }

def wfC5 : WorkflowState :=
  { session_id := "s5", user_query := some "q",
    plan := some planC5,
    accepted_plan := true,
    steps_results := [("C", Output.ostr "rc")],
    step_statuses :=
      [("R", STATUS_RUNNING), ("C", STATUS_COMPLETED), ("F", STATUS_FAILED),
       ("S", STATUS_SKIPPED), ("P", STATUS_PENDING)],
    status := "in_progress", updates := [], final_result := none }

/-- C7 fixtures: a self-dependent task, duplicated ids, and an empty plan. -/
def planSelfDep : TasksOutput := { tasks := [mkTask "A" ["A"]], summary := "s" }

def planDupIds : TasksOutput := { tasks := [mkTask "A" [], mkTask "A" []], summary := "s" }

def planEmpty : TasksOutput := { tasks := [], summary := "s" }

/-! ## Basic lemmas on the dict / set helpers -/

theorem lookup_cons_self {α : Type} (k : String) (v : α) (t : List (String × α)) :
    List.lookup k ((k, v) :: t) = some v := by
  simp only [List.lookup, beq_self_eq_true]

theorem lookup_cons_ne {α : Type} (k k' : String) (v : α) (t : List (String × α))
    (h : k' ≠ k) : List.lookup k' ((k, v) :: t) = List.lookup k' t := by
  simp only [List.lookup]
  rw [show (k' == k) = false by simp [h]]

theorem mem_of_lookup_eq_some {α : Type} {l : List (String × α)} {k : String} {v : α}
    (h : List.lookup k l = some v) : (k, v) ∈ l := by
  induction l with
  | nil => simp [List.lookup] at h
  | cons p t ih =>
    obtain ⟨a, b⟩ := p
    by_cases hk : k = a
    · subst hk
      rw [lookup_cons_self] at h
      cases h; simp
    · rw [lookup_cons_ne _ _ _ _ hk] at h
      exact List.mem_cons_of_mem _ (ih h)

theorem lookup_eq_of_mem_nodup {α : Type} {l : List (String × α)} {k : String} {v : α}
    (hnd : (l.map Prod.fst).Nodup) (h : (k, v) ∈ l) : List.lookup k l = some v := by
  induction l with
  | nil => simp at h
  | cons p t ih =>
    obtain ⟨a, b⟩ := p
    simp only [List.map_cons, List.nodup_cons] at hnd
    rcases List.mem_cons.1 h with h1 | h1
    · cases h1
      exact lookup_cons_self _ _ _
    · have hka : k ≠ a := by
        rintro rfl
        exact hnd.1 (List.mem_map.2 ⟨(k, v), h1, rfl⟩)
      rw [lookup_cons_ne _ _ _ _ hka]
      exact ih hnd.2 h1

theorem lookup_setA_self {α : Type} (l : List (String × α)) (k : String) (v : α) :
    List.lookup k (setA l k v) = some v := by
  induction l with
  | nil => simp [setA, lookup_cons_self]
  | cons p t ih =>
    obtain ⟨a, b⟩ := p
    by_cases hk : a = k
    · subst hk
      simp only [setA, if_pos rfl]
      exact lookup_cons_self _ _ _
    · simp only [setA, if_neg hk]
      have hk' : k ≠ a := fun h => hk h.symm
      rw [lookup_cons_ne _ _ _ _ hk']
      exact ih

theorem lookup_setA_ne {α : Type} (l : List (String × α)) (k k' : String) (v : α)
    (h : k' ≠ k) : List.lookup k' (setA l k v) = List.lookup k' l := by
  induction l with
  | nil =>
    show List.lookup k' [(k, v)] = List.lookup k' []
    rw [lookup_cons_ne _ _ _ _ h]
  | cons p t ih =>
    obtain ⟨a, b⟩ := p
    by_cases hk : a = k
    · subst hk
      have hs : setA ((a, b) :: t) a v = (a, v) :: t := by simp [setA]
      rw [hs, lookup_cons_ne _ _ _ _ h, lookup_cons_ne _ _ _ _ h]
    · simp only [setA, if_neg hk]
      by_cases hk2 : k' = a
      · subst hk2
        rw [lookup_cons_self, lookup_cons_self]
      · rw [lookup_cons_ne _ _ _ _ hk2, lookup_cons_ne _ _ _ _ hk2]
        exact ih

theorem setA_map_fst {α : Type} (l : List (String × α)) (k : String) (v : α) :
    (setA l k v).map Prod.fst =
      if k ∈ l.map Prod.fst then l.map Prod.fst else l.map Prod.fst ++ [k] := by
  induction l with
  | nil => simp [setA]
  | cons p t ih =>
    obtain ⟨a, b⟩ := p
    by_cases hk : a = k
    · subst hk
      simp [setA]
    · have hk' : k ≠ a := fun h => hk h.symm
      simp only [setA, if_neg hk, List.map_cons, ih]
      by_cases hm : k ∈ t.map Prod.fst
      · simp [hm, hk']
      · simp [hm, hk']

theorem setA_not_mem {α : Type} (l : List (String × α)) (k : String) (v : α)
    (h : k ∉ l.map Prod.fst) : setA l k v = l ++ [(k, v)] := by
  induction l with
  | nil => simp [setA]
  | cons p t ih =>
    obtain ⟨a, b⟩ := p
    simp only [List.map_cons, List.mem_cons] at h
    push_neg at h
    have hk : a ≠ k := fun hh => h.1 hh.symm
    simp only [setA, if_neg hk, List.cons_append]
    rw [ih h.2]

theorem mem_addSet_iff (l : List String) (x y : String) :
    x ∈ addSet l y ↔ x ∈ l ∨ x = y := by
  unfold addSet
  by_cases h : y ∈ l
  · simp only [if_pos h]
    constructor
    · exact Or.inl
    · rintro (h1 | rfl)
      · exact h1
      · exact h
  · simp [if_neg h]

theorem addSet_sub (l : List String) (y : String) : l ⊆ addSet l y := by
  intro x hx
  rw [mem_addSet_iff]
  exact Or.inl hx

theorem addSet_self_mem (l : List String) (y : String) : y ∈ addSet l y := by
  rw [mem_addSet_iff]
  exact Or.inr rfl

theorem addSet_nodup (l : List String) (y : String) (h : l.Nodup) : (addSet l y).Nodup := by
  unfold addSet
  by_cases hm : y ∈ l
  · simpa [hm]
  · simp only [if_neg hm]
    rw [List.nodup_append]
    refine ⟨h, List.nodup_singleton y, ?_⟩
    intro a ha hay
    simp only [List.mem_singleton] at hay
    subst hay
    exact hm ha

theorem foldl_addSet_mem (ids : List String) (l : List String) (x : String) :
    x ∈ ids.foldl addSet l ↔ x ∈ l ∨ x ∈ ids := by
  induction ids generalizing l with
  | nil => simp
  | cons a t ih =>
    simp only [List.foldl_cons, ih, mem_addSet_iff, List.mem_cons]
    tauto

theorem lookup_mapVal (f : String → String) (l : List (String × String)) (k : String) :
    List.lookup k (mapVal f l) = (List.lookup k l).map f := by
  induction l with
  | nil => simp [mapVal, List.lookup]
  | cons p t ih =>
    obtain ⟨a, b⟩ := p
    by_cases hk : k = a
    · subst hk
      simp only [mapVal, List.map_cons]
      rw [lookup_cons_self, lookup_cons_self]
      rfl
    · simp only [mapVal, List.map_cons] at *
      rw [lookup_cons_ne _ _ _ _ hk, lookup_cons_ne _ _ _ _ hk]
      exact ih

theorem mapVal_map_fst (f : String → String) (l : List (String × String)) :
    (mapVal f l).map Prod.fst = l.map Prod.fst := by
  induction l with
  | nil => rfl
  | cons p t ih =>
    simp only [mapVal, List.map_cons] at *
    rw [ih]

theorem foldl_setA_keys_nodup (ts : List Task) :
    ∀ acc : List (String × Task), (acc.map Prod.fst).Nodup →
      ((ts.foldl (fun m t => setA m t.id t) acc).map Prod.fst).Nodup := by
  induction ts with
  | nil => intro acc h; simpa using h
  | cons t rest ih =>
    intro acc h
    simp only [List.foldl_cons]
    apply ih
    rw [setA_map_fst]
    by_cases hm : t.id ∈ acc.map Prod.fst
    · simpa [hm]
    · simp only [if_neg hm]
      rw [List.nodup_append]
      refine ⟨h, List.nodup_singleton _, ?_⟩
      intro a ha hay
      simp only [List.mem_singleton] at hay
      subst hay
      exact hm ha

theorem tasksMapOf_keys_nodup (ts : List Task) : ((tasksMapOf ts).map Prod.fst).Nodup :=
  foldl_setA_keys_nodup ts [] (by simp)

theorem foldl_setA_eq_append (ts : List Task) :
    ∀ acc : List (String × Task),
      (∀ t ∈ ts, t.id ∉ acc.map Prod.fst) → (ts.map Task.id).Nodup →
      ts.foldl (fun m t => setA m t.id t) acc = acc ++ ts.map (fun t => (t.id, t)) := by
  induction ts with
  | nil => intro acc _ _; simp
  | cons t rest ih =>
    intro acc hacc hnd'
    simp only [List.map_cons, List.nodup_cons] at hnd'
    simp only [List.foldl_cons]
    rw [setA_not_mem _ _ _ (hacc t (by simp))]
    rw [ih (acc ++ [(t.id, t)]) ?_ hnd'.2]
    · simp
    · intro u hu
      simp only [List.map_append, List.mem_append]
      push_neg
      refine ⟨hacc u (List.mem_cons_of_mem _ hu), ?_⟩
      simp only [List.map_cons, List.map_nil, List.mem_singleton]
      intro hid
      exact hnd'.1 (by rw [← hid]; exact List.mem_map.2 ⟨u, hu, rfl⟩)

theorem tasksMapOf_eq_map (ts : List Task) (hnd : (ts.map Task.id).Nodup) :
    tasksMapOf ts = ts.map (fun t => (t.id, t)) := by
  simpa [tasksMapOf] using foldl_setA_eq_append ts [] (by simp) hnd

/-! ## C7: plan validation -/

theorem validateTasks_ok_iff (ids : List String) (ts : List Task) :
    validateTasks ids ts = Except.ok () ↔
      ∀ t ∈ ts, t.id ≠ "" ∧ ∀ d ∈ t.dependencies, d ∈ ids := by
  induction ts with
  | nil => simp [validateTasks]
  | cons t rest ih =>
    simp only [validateTasks]
    by_cases h1 : t.id = ""
    · simp only [if_pos h1]
      constructor
      · intro h; exact Except.noConfusion h
      · intro h
        exact absurd h1 (h t (by simp)).1
    · simp only [if_neg h1]
      by_cases h2 : t.dependencies.any (fun d => decide (d ∉ ids)) = true
      · simp only [if_pos h2]
        simp only [List.any_eq_true, decide_eq_true_eq] at h2
        obtain ⟨d, hd, hdn⟩ := h2
        constructor
        · intro h; exact Except.noConfusion h
        · intro h
          exact absurd ((h t (by simp)).2 d hd) hdn
      · simp only [if_neg h2, ih]
        simp only [List.any_eq_true, decide_eq_true_eq, not_exists] at h2
        push_neg at h2
        constructor
        · intro h
          intro u hu
          rcases List.mem_cons.1 hu with rfl | hu'
          · exact ⟨h1, h2⟩
          · exact h u hu'
        · intro h u hu
          exact h u (List.mem_cons_of_mem _ hu)

/-- C7 counterexample: the validation of `create_plan` accepts a plan whose
only task depends on itself, accepts a plan with a duplicated task id, and
rejects the empty plan — contradicting the claim that validation fails
exactly on empty/duplicated ids, unknown dependencies and self-dependencies
and on nothing else. -/
theorem plan_validation_counterexample :
    validatePlan (some planSelfDep) = Except.ok () ∧
    (mkTask "A" ["A"]).id ∈ (mkTask "A" ["A"]).dependencies ∧
    validatePlan (some planDupIds) = Except.ok () ∧
    ¬ (planDupIds.tasks.map Task.id).Nodup ∧
    validatePlan (some planEmpty) =
      Except.error "Plan generation failed or produced an empty plan." := by
  refine ⟨rfl, by decide, rfl, by decide, rfl⟩

/-- C7 (amended): `create_plan`'s validation succeeds exactly when the plan
is present and nonempty, every task id is nonempty, and every dependency
refers to some task id of the plan.  Duplicated ids and self-dependencies
are NOT rejected (a task's own id is in the id set, so a self-dependency
passes), and the empty plan IS rejected. -/
theorem plan_validation_amended (p : TasksOutput) :
    validatePlan (some p) = Except.ok () ↔
      (p.tasks ≠ [] ∧ ∀ t ∈ p.tasks, t.id ≠ "" ∧
        ∀ d ∈ t.dependencies, d ∈ p.tasks.map Task.id) := by
  simp only [validatePlan]
  by_cases h : p.tasks = []
  · simp only [if_pos h]
    constructor
    · intro hh; exact Except.noConfusion hh
    · intro hh
      exact absurd h hh.1
  · simp only [if_neg h, validateTasks_ok_iff]
    constructor
    · intro hv
      exact ⟨h, hv⟩
    · intro hv
      exact hv.2

/-! ## C9: persistence failures -/

/-- C9 (amended): a failed save leaves the store untouched and a successful
save installs the complete new state (atomicity from the caller's point of
view, via `db.session.rollback()`); the scheduler's entire observable
behavior — final state, returned result, and every emitted event, callbacks
included — is independent of which save calls succeed, because `execute_plan`
discards the boolean returned by `save_workflow_state` and never reads the
store after the initial load.  In particular a save failure is non-fatal; but
contrary to the claim it is NOT reported through the progress callback. -/
theorem save_failure_behavior :
    (∀ st : Store, ∀ wf : WorkflowState, save_workflow_state false st wf = (st, false)) ∧
    (∀ ok : Bool, ∀ st : Store, ∀ wf : WorkflowState,
      (save_workflow_state ok st wf).1 = st ∨
      (save_workflow_state ok st wf).1 = setA st wf.session_id wf) ∧
    (∀ oks1 oks2 : Nat → Bool, ∀ st0 : Store, ∀ fs : String → Option String,
      ∀ orcs : List (List (String × ExecOutcome)), ∀ wf0 : WorkflowState,
      (execute_planDB oks1 st0 fs orcs wf0).1 = (execute_planDB oks2 st0 fs orcs wf0).1) := by
  refine ⟨fun st wf => rfl, fun ok st wf => ?_, fun oks1 oks2 st0 fs orcs wf0 => rfl⟩
  by_cases h : ok = true
  · subst h
    exact Or.inr rfl
  · simp only [Bool.not_eq_true] at h
    subst h
    exact Or.inl rfl

/-- C9 counterexample: a run in which every save call fails (the replayed
store stays empty although four saves were attempted, while the same run with
succeeding saves does fill the store), yet the progress-callback messages are
exactly the same as in the all-successful run — so the save failure is not
reported upward via the progress callback, contradicting the claim. -/
theorem save_failure_counterexample :
    runC9fail.2 = [] ∧
    (savesOf runC9fail.1.1.events).length = 4 ∧
    runC9ok.2 ≠ [] ∧
    cbMsgs runC9fail.1.1.events = cbMsgs runC9ok.1.1.events ∧
    cbMsgs runC9fail.1.1.events =
      ["Starting workflow execution for session s9 with 1 tasks.",
       "Starting task 'TA'",
       "Completed task: TA (ID: A...)",
       "Workflow s9 completed, but final synthesis might be missing. Generated basic summary."] := by
  refine ⟨by decide, by decide, by decide, rfl, by decide⟩

/-! ## Counterexamples for C1, C3, C4, C6, C8 -/

/-- C1 counterexample: in the plan [Z needs Y, Y needs X, X], when X's
execution fails, Y is skipped but the stall detector then force-marks the
transitive dependent Z as `failed` — not `skipped` — because Z was examined
before Y in the same readiness pass, contradicting the claim that every
transitive dependent of a failed task ends `skipped`. -/
theorem skip_propagation_counterexample :
    DependsOn (tasksMapOf planC1tasks) "Z" "X" ∧
    List.lookup "X" runC1.1.wf.step_statuses = some STATUS_FAILED ∧
    List.lookup "Z" runC1.1.wf.step_statuses = some STATUS_FAILED ∧
    List.lookup "Z" runC1.1.wf.step_statuses ≠ some STATUS_SKIPPED ∧
    Ended (tasksMapOf planC1tasks).length runC1.1 := by
  refine ⟨?_, by decide, by decide, by decide, Or.inl (by decide)⟩
  have h1 : directDep (tasksMapOf planC1tasks) "Z" "Y" :=
    show "Y" ∈ depsOf (tasksMapOf planC1tasks) "Z" by decide
  have h2 : directDep (tasksMapOf planC1tasks) "Y" "X" :=
    show "X" ∈ depsOf (tasksMapOf planC1tasks) "Y" by decide
  exact Relation.TransGen.head h1 (Relation.TransGen.single h2)

/-- C3 counterexample: task A times out in round 1 (entering the failed
classification set) and then finishes successfully in round 2 — the source
never removes a timed-out invocation from `running_async_tasks` and a late
success overwrites the status — so the run ends with overall status `failed`
although every task ends in status `completed` and none ends `failed` or
`skipped`, contradicting the claimed "iff". -/
theorem overall_status_counterexample :
    runC3.1.wf.status = STATUS_FAILED ∧
    (∀ q ∈ runC3.1.wf.step_statuses, q.2 = STATUS_COMPLETED) ∧
    runC3.1.wf.step_statuses.map Prod.fst = planC3tasks.map Task.id ∧
    Ended (tasksMapOf planC3tasks).length runC3.1 := by
  refine ⟨by decide, by decide, by decide, Or.inr (by decide)⟩

/-- C4 counterexample: in the two-task scenario of the claim (A fails, B is
skipped, overall status `failed`, no synthesis result) the final result is
the terse failure message naming the failed tasks, not the fallback summary
that lists every task with its title, status and stored result — the
fallback generator only runs when the overall status is `completed`. -/
theorem fallback_report_counterexample :
    runC4.1.wf.status = STATUS_FAILED ∧
    List.lookup "A" runC4.1.wf.step_statuses = some STATUS_FAILED ∧
    List.lookup "B" runC4.1.wf.step_statuses = some STATUS_SKIPPED ∧
    List.lookup synthId runC4.1.wf.steps_results = none ∧
    runC4.1.wf.final_result =
      some "Workflow failed. See logs for details. Failed tasks: A, B" ∧
    runC4.1.wf.final_result ≠
      some (generate_final_report planC4tasks runC4.1.wf.steps_results
        runC4.1.wf.step_statuses) := by
  refine ⟨by decide, by decide, by decide, by decide, by decide, by decide⟩

/-- C6 counterexample: a terminal session (both tasks `failed`, overall
status `failed`) whose stored final result lists the failed tasks in harvest
order "B, A"; re-invoking the scheduler dispatches nothing but recomputes the
failure message from the status map, which lists them as "A, B" — so the
previously stored `final_result` is NOT returned unchanged. -/
theorem terminal_idempotence_counterexample :
    (∀ q ∈ runC6first.1.wf.step_statuses,
      q.2 = STATUS_COMPLETED ∨ q.2 = STATUS_FAILED ∨ q.2 = STATUS_SKIPPED) ∧
    runC6first.1.wf.status = STATUS_FAILED ∧
    runC6first.1.wf.final_result =
      some "Workflow failed. See logs for details. Failed tasks: B, A" ∧
    hasDispatch runC6again.1.events = false ∧
    runC6again.2 = "Workflow failed. See logs for details. Failed tasks: A, B" ∧
    some runC6again.2 ≠ runC6first.1.wf.final_result := by
  refine ⟨by decide, by decide, by decide, by decide, by decide, by decide⟩

/-- C8 counterexample: the complete effect trace of a run whose single task
times out.  After the dispatch, the timeout handling fires the callback and
the cancellation with NO save call in between — the only save recording the
`failed` status is the final post-loop save — contradicting the claim that
the scheduler persists the updated state as part of the timeout handling. -/
theorem timeout_persistence_counterexample :
    runC8.1.events.map eventTag =
      [ETag.save, ETag.cb, ETag.save, ETag.cb, ETag.dispatch,
       ETag.cb, ETag.cancel, ETag.save, ETag.cb] ∧
    (savesOf runC8.1.events).map (fun w => List.lookup "A" w.step_statuses) =
      [some STATUS_PENDING, some STATUS_RUNNING, some STATUS_FAILED] ∧
    cbMsgs runC8.1.events =
      ["Starting workflow execution for session s8 with 1 tasks.",
       "Starting task 'TA'",
       "Failed task 'TA' (timeout)",
       "Workflow s8 failed."] ∧
    List.lookup "A" runC8.1.wf.step_statuses = some STATUS_FAILED ∧
    "A" ∈ runC8.1.runningM := by
  refine ⟨by decide, by decide, by decide, by decide, by decide⟩

theorem terminal_partition_length (l : List (String × String))
    (h : ∀ q ∈ l, q.2 = STATUS_COMPLETED ∨ q.2 = STATUS_FAILED ∨ q.2 = STATUS_SKIPPED) :
    (completedOf l).length + (failedOf l).length = l.length := by
  induction l with
  | nil => simp [completedOf, failedOf]
  | cons p t ih =>
    have hp := h p (by simp)
    have ht : ∀ q ∈ t, q.2 = STATUS_COMPLETED ∨ q.2 = STATUS_FAILED ∨ q.2 = STATUS_SKIPPED :=
      fun q hq => h q (List.mem_cons_of_mem _ hq)
    have iht := ih ht
    rcases hp with h1 | h1 | h1
    · have hc : completedOf (p :: t) = p.1 :: completedOf t := by
        simp [completedOf, List.filterMap_cons, h1]
      have hf : failedOf (p :: t) = failedOf t := by
        simp [failedOf, List.filterMap_cons, h1, STATUS_COMPLETED, STATUS_FAILED, STATUS_SKIPPED]
      rw [hc, hf]
      simp only [List.length_cons]
      omega
    · have hc : completedOf (p :: t) = completedOf t := by
        simp [completedOf, List.filterMap_cons, h1, STATUS_COMPLETED, STATUS_FAILED]
      have hf : failedOf (p :: t) = p.1 :: failedOf t := by
        simp [failedOf, List.filterMap_cons, h1]
      rw [hc, hf]
      simp only [List.length_cons]
      omega
    · have hc : completedOf (p :: t) = completedOf t := by
        simp [completedOf, List.filterMap_cons, h1, STATUS_COMPLETED, STATUS_SKIPPED]
      have hf : failedOf (p :: t) = p.1 :: failedOf t := by
        simp [failedOf, List.filterMap_cons, h1]
      rw [hc, hf]
      simp only [List.length_cons]
      omega

/-! ## C10: a completed task always has a stored result -/

theorem mem_setA {α : Type} {l : List (String × α)} {k : String} {v : α} {q : String × α}
    (h : q ∈ setA l k v) : q = (k, v) ∨ q ∈ l := by
  induction l with
  | nil => simpa [setA] using h
  | cons p t ih =>
    obtain ⟨a, b⟩ := p
    by_cases hk : a = k
    · subst hk
      simp only [setA, if_pos rfl, if_true, eq_self_iff_true, List.mem_cons] at h
      rcases h with h | h
      · exact Or.inl h
      · exact Or.inr (List.mem_cons_of_mem _ h)
    · simp only [setA, if_neg hk, List.mem_cons] at h
      rcases h with h | h
      · exact Or.inr (by simp [h])
      · rcases ih h with h1 | h1
        · exact Or.inl h1
        · exact Or.inr (List.mem_cons_of_mem _ h1)

theorem lookup_setA_isSome {α : Type} (l : List (String × α)) (k k' : String) (v : α)
    (h : (List.lookup k l).isSome = true) :
    (List.lookup k (setA l k' v)).isSome = true := by
  by_cases hk : k = k'
  · subst hk
    rw [lookup_setA_self]
    rfl
  · rw [lookup_setA_ne _ _ _ _ hk]
    exact h

theorem savesOf_append (a b : List Event) : savesOf (a ++ b) = savesOf a ++ savesOf b := by
  simp [savesOf, List.filterMap_append]

theorem savesOf_save (w : WorkflowState) : savesOf [Event.saveEv w] = [w] := rfl

theorem savesOf_cb (m : String) : savesOf [Event.cb m] = [] := rfl

theorem savesOf_dispatch (tid : String) (snap : List (String × String)) :
    savesOf [Event.dispatch tid snap] = [] := rfl

theorem savesOf_cancel (tid : String) : savesOf [Event.cancelEv tid] = [] := rfl

theorem cbMsgs_append (a b : List Event) : cbMsgs (a ++ b) = cbMsgs a ++ cbMsgs b := by
  simp [cbMsgs, List.filterMap_append]

theorem execute_plan_accepted_eq (fs : String → Option String)
    (orcs : List (List (String × ExecOutcome))) (wf0 : WorkflowState) (p : TasksOutput)
    (hp : wf0.plan = some p) (hacc : wf0.accepted_plan = true) :
    execute_plan fs orcs wf0 = execute_planAccepted fs orcs wf0 p := by
  unfold execute_plan
  rw [hp, hacc]

theorem rr_parts_set_status (sts : List (String × String)) (res : List (String × Output))
    (tid v : String)
    (h : ∀ q ∈ sts, q.2 = STATUS_COMPLETED → (List.lookup q.1 res).isSome = true)
    (hv : v ≠ STATUS_COMPLETED) :
    ∀ q ∈ setA sts tid v, q.2 = STATUS_COMPLETED → (List.lookup q.1 res).isSome = true := by
  intro q hq hqc
  rcases mem_setA hq with h1 | h1
  · rw [h1] at hqc
    exact absurd hqc hv
  · exact h q h1 hqc

theorem rr_parts_success (sts : List (String × String)) (res : List (String × Output))
    (tid : String) (o : Output)
    (h : ∀ q ∈ sts, q.2 = STATUS_COMPLETED → (List.lookup q.1 res).isSome = true) :
    ∀ q ∈ setA sts tid STATUS_COMPLETED, q.2 = STATUS_COMPLETED →
      (List.lookup q.1 (setA res tid o)).isSome = true := by
  intro q hq hqc
  rcases mem_setA hq with h1 | h1
  · rw [h1]
    rw [lookup_setA_self]
    rfl
  · exact lookup_setA_isSome _ _ _ _ (h q h1 hqc)

theorem rr_parts_mapVal (f : String → String)
    (hf : ∀ s, f s = STATUS_COMPLETED → s = STATUS_COMPLETED)
    (sts : List (String × String)) (res : List (String × Output))
    (h : ∀ q ∈ sts, q.2 = STATUS_COMPLETED → (List.lookup q.1 res).isSome = true) :
    ∀ q ∈ mapVal f sts, q.2 = STATUS_COMPLETED → (List.lookup q.1 res).isSome = true := by
  intro q hq hqc
  simp only [mapVal, List.mem_map] at hq
  obtain ⟨q0, hq0, rfl⟩ := hq
  exact h q0 hq0 (hf _ hqc)

theorem emitSave_rr (e : Exec) (h : ExecResultRecorded e) :
    ExecResultRecorded (emitSave e) := by
  refine ⟨h.1, ?_⟩
  intro w hw
  simp only [emitSave, savesOf_append] at hw
  rcases List.mem_append.1 hw with hw1 | hw1
  · exact h.2 w hw1
  · simp only [savesOf, List.filterMap] at hw1
    simp only [List.mem_singleton] at hw1
    rw [hw1]
    exact h.1

theorem emitCb_rr (e : Exec) (m : String) (h : ExecResultRecorded e) :
    ExecResultRecorded (emitCb e m) := by
  refine ⟨h.1, ?_⟩
  intro w hw
  simp only [emitCb, savesOf_append] at hw
  rcases List.mem_append.1 hw with hw1 | hw1
  · exact h.2 w hw1
  · simp [savesOf] at hw1

theorem readyPass_rr (ents : List (String × Task)) :
    ∀ (e : Exec) (ready : List String), ExecResultRecorded e →
      ExecResultRecorded (readyPass ents e ready).1 := by
  induction ents with
  | nil =>
    intro e ready h
    simpa [readyPass] using h
  | cons ent rest ih =>
    intro e ready h
    obtain ⟨tid, tob⟩ := ent
    rw [readyPass]
    split
    · split
      · exact ih _ _ h
      · split
        · refine ih _ _ (emitCb_rr _ _ (emitSave_rr _ ⟨?_, h.2⟩))
          exact rr_parts_set_status _ _ _ _ h.1 (by decide)
        · exact ih _ _ h
    · exact ih _ _ h

theorem stallCheck_rr (total : Nat) (ready : List String) (e : Exec)
    (h : ExecResultRecorded e) : ExecResultRecorded (stallCheck total ready e) := by
  have hf : ∀ s, (if s = STATUS_PENDING then STATUS_FAILED else s) = STATUS_COMPLETED →
      s = STATUS_COMPLETED := by
    intro s hs
    by_cases hsp : s = STATUS_PENDING
    · rw [if_pos hsp] at hs
      exact absurd hs (by decide)
    · rwa [if_neg hsp] at hs
  unfold stallCheck
  split
  · split
    · unfold stallApply
      dsimp only
      refine emitCb_rr _ _ (emitSave_rr _ ⟨?_, h.2⟩)
      exact rr_parts_mapVal (fun s => if s = STATUS_PENDING then STATUS_FAILED else s) hf
        e.wf.step_statuses e.wf.steps_results h.1
    · exact h
  · exact h

theorem launchPass_rr (tm : List (String × Task)) :
    ∀ (ready : List String) (e : Exec), ExecResultRecorded e →
      ExecResultRecorded (launchPass tm ready e) := by
  intro ready
  induction ready with
  | nil =>
    intro e h
    simpa [launchPass] using h
  | cons tid rest ih =>
    intro e h
    rw [launchPass]
    split
    · exact ih _ h
    · refine ih _ ?_
      have hwf1 := rr_parts_set_status e.wf.step_statuses e.wf.steps_results tid
        STATUS_RUNNING h.1 (by decide)
      refine ⟨hwf1, ?_⟩
      intro w hw
      simp only [emitCb, emitSave, savesOf_append, savesOf_save, savesOf_cb,
        savesOf_dispatch, List.append_assoc, List.append_nil, List.nil_append,
        List.mem_append, List.mem_singleton] at hw
      rcases hw with hw | hw
      · exact h.2 w hw
      · rw [hw]
        exact hwf1

theorem handleDone_rr (tm : List (String × Task)) (e : Exec) (tid : String)
    (oc : ExecOutcome) (h : ExecResultRecorded e) :
    ExecResultRecorded (handleDone tm e tid oc) := by
  unfold handleDone
  split
  · cases oc with
    | success o =>
      have hwf1 := rr_parts_success e.wf.step_statuses e.wf.steps_results tid o h.1
      refine ⟨hwf1, ?_⟩
      intro w hw
      simp only [emitCb, emitSave, savesOf_append, savesOf_save, savesOf_cb,
        List.append_assoc, List.append_nil, List.nil_append,
        List.mem_append, List.mem_singleton] at hw
      rcases hw with hw | hw
      · exact h.2 w hw
      · rw [hw]
        exact hwf1
    | failure err =>
      have hwf1 := rr_parts_set_status e.wf.step_statuses e.wf.steps_results tid
        STATUS_FAILED h.1 (by decide)
      refine ⟨hwf1, ?_⟩
      intro w hw
      simp only [emitCb, emitSave, savesOf_append, savesOf_save, savesOf_cb,
        List.append_assoc, List.append_nil, List.nil_append,
        List.mem_append, List.mem_singleton] at hw
      rcases hw with hw | hw
      · exact h.2 w hw
      · rw [hw]
        exact hwf1
  · exact h

theorem doneFold_rr (tm : List (String × Task)) :
    ∀ (dl : List (String × ExecOutcome)) (e : Exec), ExecResultRecorded e →
      ExecResultRecorded (doneFold tm dl e) := by
  intro dl
  induction dl with
  | nil =>
    intro e h
    simpa [doneFold] using h
  | cons d rest ih =>
    intro e h
    rw [doneFold]
    exact ih _ (handleDone_rr _ _ _ _ h)

theorem timeoutOne_rr (tm : List (String × Task)) (e : Exec) (tid : String)
    (h : ExecResultRecorded e) : ExecResultRecorded (timeoutOne tm e tid) := by
  refine ⟨?_, ?_⟩
  · exact rr_parts_set_status _ _ _ _ h.1 (by decide)
  · intro w hw
    simp only [timeoutOne, emitCb, savesOf_append] at hw
    rcases List.mem_append.1 hw with hw1 | hw1
    · rcases List.mem_append.1 hw1 with hw2 | hw2
      · exact h.2 w hw2
      · simp [savesOf] at hw2
    · simp [savesOf] at hw1

theorem timeoutFold_rr (tm : List (String × Task)) :
    ∀ (ids : List String) (e : Exec), ExecResultRecorded e →
      ExecResultRecorded (timeoutFold tm ids e) := by
  intro ids
  induction ids with
  | nil =>
    intro e h
    simpa [timeoutFold] using h
  | cons tid rest ih =>
    intro e h
    rw [timeoutFold]
    exact ih _ (timeoutOne_rr _ _ _ h)

theorem harvest_rr (tm : List (String × Task)) (orc : List (String × ExecOutcome))
    (e : Exec) (h : ExecResultRecorded e) : ExecResultRecorded (harvest tm orc e) := by
  unfold harvest
  split
  · exact h
  · exact timeoutFold_rr _ _ _ (doneFold_rr _ _ _ h)

theorem round_rr (tm : List (String × Task)) (total : Nat)
    (orc : List (String × ExecOutcome)) (e : Exec) (h : ExecResultRecorded e) :
    ExecResultRecorded (round tm total orc e) := by
  unfold round
  dsimp only
  split
  · exact stallCheck_rr _ _ _ (readyPass_rr _ _ _ h)
  · exact harvest_rr _ _ _ (launchPass_rr _ _ _ (stallCheck_rr _ _ _ (readyPass_rr _ _ _ h)))

theorem execRounds_rr (tm : List (String × Task)) (total : Nat) :
    ∀ (orcs : List (List (String × ExecOutcome))) (e : Exec), ExecResultRecorded e →
      ExecResultRecorded (execRounds tm total orcs e) := by
  intro orcs
  induction orcs with
  | nil =>
    intro e h
    simpa [execRounds] using h
  | cons orc rest ih =>
    intro e h
    rw [execRounds]
    split
    · exact h
    · split
      · exact ih _ (round_rr _ _ _ _ h)
      · exact h

theorem finalize_rr (fs : String → Option String) (tm : List (String × Task)) (e : Exec)
    (h : ExecResultRecorded e) : ExecResultRecorded (finalize fs tm e) := by
  unfold finalize
  exact emitCb_rr _ _ (emitSave_rr _ ⟨h.1, h.2⟩)

theorem initExec_rr (wf0 : WorkflowState) (total : Nat) (h : ResultRecorded wf0) :
    ExecResultRecorded (initExec wf0 total) := by
  have hf : ∀ s, (if s = STATUS_RUNNING then STATUS_PENDING else s) = STATUS_COMPLETED →
      s = STATUS_COMPLETED := by
    intro s hs
    by_cases hsr : s = STATUS_RUNNING
    · rw [if_pos hsr] at hs
      exact absurd hs (by decide)
    · rwa [if_neg hsr] at hs
  refine emitCb_rr _ _ (emitSave_rr _ ⟨?_, ?_⟩)
  · exact rr_parts_mapVal (fun s => if s = STATUS_RUNNING then STATUS_PENDING else s) hf
      wf0.step_statuses wf0.steps_results h
  · intro w hw
    simp [savesOf] at hw

/-- C10: throughout any run of the scheduler, a task whose status is
`completed` has an entry in the task-result map — the result is stored in
`steps_results` before the status is set to `completed` and before the state
is saved — so, provided the loaded state already satisfies it (as a freshly
accepted plan does), the invariant holds of the final in-memory state and of
every snapshot passed to `save_workflow_state`. -/
theorem completed_has_result (fs : String → Option String)
    (orcs : List (List (String × ExecOutcome))) (wf0 : WorkflowState) (p : TasksOutput)
    (hp : wf0.plan = some p) (hacc : wf0.accepted_plan = true)
    (h0 : ResultRecorded wf0) :
    ResultRecorded (execute_plan fs orcs wf0).1.wf ∧
    ∀ w ∈ savesOf (execute_plan fs orcs wf0).1.events, ResultRecorded w := by
  rw [execute_plan_accepted_eq fs orcs wf0 p hp hacc]
  exact finalize_rr _ _ _ (execRounds_rr _ _ _ _ (initExec_rr _ _ h0))

/-- C10 witness: the invariant applied to a concrete resumed session whose
one completed task has a stored result. -/
theorem completed_has_result_witness :
    ResultRecorded (execute_plan noFs [] wfC5).1.wf ∧
    ∀ w ∈ savesOf (execute_plan noFs [] wfC5).1.events, ResultRecorded w :=
  completed_has_result noFs [] wfC5 planC5 rfl rfl (by decide)

/-! ## Trace-extension lemmas: the scheduler only appends to the event trace -/

theorem eventsExtend_refl (e : Exec) : EventsExtend e e :=
  ⟨[], (List.append_nil _).symm⟩

theorem eventsExtend_trans {a b c : Exec} (h1 : EventsExtend a b) (h2 : EventsExtend b c) :
    EventsExtend a c := by
  obtain ⟨t1, h1⟩ := h1
  obtain ⟨t2, h2⟩ := h2
  exact ⟨t1 ++ t2, by rw [h2, h1, List.append_assoc]⟩

theorem eventsExtend_of_events_eq {e x : Exec} (h : x.events = e.events) : EventsExtend e x :=
  ⟨[], by rw [h, List.append_nil]⟩

theorem eventsExtend_emitSave (e : Exec) : EventsExtend e (emitSave e) :=
  ⟨[Event.saveEv e.wf], rfl⟩

theorem eventsExtend_emitCb (e : Exec) (m : String) : EventsExtend e (emitCb e m) :=
  ⟨[Event.cb m], rfl⟩

theorem readyPass_events (ents : List (String × Task)) :
    ∀ (e : Exec) (ready : List String), EventsExtend e (readyPass ents e ready).1 := by
  induction ents with
  | nil =>
    intro e ready
    simp only [readyPass]
    exact eventsExtend_refl e
  | cons ent rest ih =>
    intro e ready
    obtain ⟨tid, tob⟩ := ent
    rw [readyPass]
    split
    · split
      · exact ih _ _
      · split
        · refine eventsExtend_trans ?_ (ih _ _)
          refine eventsExtend_trans ?_ (eventsExtend_emitCb _ _)
          refine eventsExtend_trans ?_ (eventsExtend_emitSave _)
          exact eventsExtend_of_events_eq rfl
        · exact ih _ _
    · exact ih _ _

theorem stallCheck_events (total : Nat) (ready : List String) (e : Exec) :
    EventsExtend e (stallCheck total ready e) := by
  unfold stallCheck
  split
  · split
    · unfold stallApply
      dsimp only
      refine eventsExtend_trans ?_ (eventsExtend_emitCb _ _)
      refine eventsExtend_trans ?_ (eventsExtend_emitSave _)
      exact eventsExtend_of_events_eq rfl
    · exact eventsExtend_refl e
  · exact eventsExtend_refl e

theorem launchPass_events (tm : List (String × Task)) :
    ∀ (ready : List String) (e : Exec), EventsExtend e (launchPass tm ready e) := by
  intro ready
  induction ready with
  | nil =>
    intro e
    simp only [launchPass]
    exact eventsExtend_refl e
  | cons tid rest ih =>
    intro e
    rw [launchPass]
    split
    · exact ih _
    · refine eventsExtend_trans ?_ (ih _)
      refine ⟨[Event.saveEv { e.wf with
          step_statuses := setA e.wf.step_statuses tid STATUS_RUNNING,
          updates := e.wf.updates ++
            ["Starting task: " ++ titleOf tm tid ++ " (ID: " ++ tid ++ ")"] },
        Event.cb ("Starting task '" ++ titleOf tm tid ++ "'"),
        Event.dispatch tid (setA e.wf.step_statuses tid STATUS_RUNNING)], ?_⟩
      simp [emitCb, emitSave, List.append_assoc]

theorem handleDone_events (tm : List (String × Task)) (e : Exec) (tid : String)
    (oc : ExecOutcome) : EventsExtend e (handleDone tm e tid oc) := by
  unfold handleDone
  split
  · cases oc with
    | success o =>
      refine eventsExtend_trans ?_ (eventsExtend_of_events_eq rfl)
      refine eventsExtend_trans ?_ (eventsExtend_emitCb _ _)
      refine eventsExtend_trans ?_ (eventsExtend_emitSave _)
      exact eventsExtend_of_events_eq rfl
    | failure err =>
      refine eventsExtend_trans ?_ (eventsExtend_of_events_eq rfl)
      refine eventsExtend_trans ?_ (eventsExtend_emitCb _ _)
      refine eventsExtend_trans ?_ (eventsExtend_emitSave _)
      exact eventsExtend_of_events_eq rfl
  · exact eventsExtend_refl e

theorem doneFold_events (tm : List (String × Task)) :
    ∀ (dl : List (String × ExecOutcome)) (e : Exec), EventsExtend e (doneFold tm dl e) := by
  intro dl
  induction dl with
  | nil =>
    intro e
    simp only [doneFold]
    exact eventsExtend_refl e
  | cons d rest ih =>
    intro e
    rw [doneFold]
    exact eventsExtend_trans (handleDone_events _ _ _ _) (ih _)

theorem timeoutOne_events (tm : List (String × Task)) (e : Exec) (tid : String) :
    EventsExtend e (timeoutOne tm e tid) := by
  refine ⟨[Event.cb ("Failed task '" ++ titleOf tm tid ++ "' (timeout)"),
    Event.cancelEv tid], ?_⟩
  simp [timeoutOne, emitCb, List.append_assoc]

theorem timeoutFold_events (tm : List (String × Task)) :
    ∀ (ids : List String) (e : Exec), EventsExtend e (timeoutFold tm ids e) := by
  intro ids
  induction ids with
  | nil =>
    intro e
    simp only [timeoutFold]
    exact eventsExtend_refl e
  | cons tid rest ih =>
    intro e
    rw [timeoutFold]
    exact eventsExtend_trans (timeoutOne_events _ _ _) (ih _)

theorem harvest_events (tm : List (String × Task)) (orc : List (String × ExecOutcome))
    (e : Exec) : EventsExtend e (harvest tm orc e) := by
  unfold harvest
  split
  · exact eventsExtend_refl e
  · exact eventsExtend_trans (doneFold_events _ _ _) (timeoutFold_events _ _ _)

theorem round_events (tm : List (String × Task)) (total : Nat)
    (orc : List (String × ExecOutcome)) (e : Exec) : EventsExtend e (round tm total orc e) := by
  unfold round
  dsimp only
  split
  · exact eventsExtend_trans (readyPass_events _ _ _) (stallCheck_events _ _ _)
  · exact eventsExtend_trans (readyPass_events _ _ _)
      (eventsExtend_trans (stallCheck_events _ _ _)
        (eventsExtend_trans (launchPass_events _ _ _) (harvest_events _ _ _)))

theorem execRounds_events (tm : List (String × Task)) (total : Nat) :
    ∀ (orcs : List (List (String × ExecOutcome))) (e : Exec),
      EventsExtend e (execRounds tm total orcs e) := by
  intro orcs
  induction orcs with
  | nil =>
    intro e
    simp only [execRounds]
    exact eventsExtend_refl e
  | cons orc rest ih =>
    intro e
    rw [execRounds]
    split
    · exact eventsExtend_refl e
    · split
      · exact eventsExtend_trans (round_events _ _ _ _) (ih _)
      · exact eventsExtend_refl e

theorem finalize_events (fs : String → Option String) (tm : List (String × Task))
    (e : Exec) : EventsExtend e (finalize fs tm e) := by
  unfold finalize
  dsimp only
  refine eventsExtend_trans ?_ (eventsExtend_emitCb _ _)
  refine eventsExtend_trans ?_ (eventsExtend_emitSave _)
  exact eventsExtend_of_events_eq rfl

/-! ## C5: resume handling -/

/-- C5: when the scheduler is invoked on a session whose persisted state has
a task in status `running`, that task is reset to `pending` before the main
loop starts — the very first persisted snapshot of the run already carries
the reset status map — while tasks persisted as `completed`, `failed` or
`skipped` keep their terminal status. -/
theorem resume_resets_running_tasks (fs : String → Option String)
    (orcs : List (List (String × ExecOutcome))) (wf0 : WorkflowState) (p : TasksOutput)
    (hp : wf0.plan = some p) (hacc : wf0.accepted_plan = true) :
    (∃ w : WorkflowState,
      (execute_plan fs orcs wf0).1.events.head? = some (Event.saveEv w) ∧
      w.step_statuses = resetRunningStatuses wf0.step_statuses) ∧
    (∀ tid, List.lookup tid wf0.step_statuses = some STATUS_RUNNING →
      List.lookup tid (resetRunningStatuses wf0.step_statuses) = some STATUS_PENDING) ∧
    (∀ tid s, (s = STATUS_COMPLETED ∨ s = STATUS_FAILED ∨ s = STATUS_SKIPPED) →
      List.lookup tid wf0.step_statuses = some s →
      List.lookup tid (resetRunningStatuses wf0.step_statuses) = some s) := by
  refine ⟨?_, ?_, ?_⟩
  · rw [execute_plan_accepted_eq fs orcs wf0 p hp hacc]
    have hext : EventsExtend (initExec wf0 (tasksMapOf p.tasks).length)
        (finalize fs (tasksMapOf p.tasks)
          (execRounds (tasksMapOf p.tasks) (tasksMapOf p.tasks).length orcs
            (initExec wf0 (tasksMapOf p.tasks).length))) :=
      eventsExtend_trans (execRounds_events _ _ _ _) (finalize_events _ _ _)
    obtain ⟨tl, htl⟩ := hext
    refine ⟨{ wf0 with
        step_statuses := resetRunningStatuses wf0.step_statuses,
        status := "in_progress",
        updates := wf0.updates ++ ["Starting workflow execution for session " ++
          wf0.session_id ++ " with " ++ toString (tasksMapOf p.tasks).length ++
          " tasks."] }, ?_, rfl⟩
    unfold execute_planAccepted
    dsimp only
    rw [htl]
    rfl
  · intro tid h
    rw [resetRunningStatuses, lookup_mapVal, h]
    rfl
  · intro tid s hs h
    rw [resetRunningStatuses, lookup_mapVal, h]
    rcases hs with rfl | rfl | rfl <;> rfl

/-! ## Finalize projections (the post-loop result handling, lines 301-367) -/

theorem finalize_failedL (fs : String → Option String) (tm : List (String × Task)) (e : Exec) :
    (finalize fs tm e).failedL = e.failedL := rfl

theorem finalize_completedL (fs : String → Option String) (tm : List (String × Task)) (e : Exec) :
    (finalize fs tm e).completedL = e.completedL := rfl

theorem finalize_statuses (fs : String → Option String) (tm : List (String × Task)) (e : Exec) :
    (finalize fs tm e).wf.step_statuses = e.wf.step_statuses := rfl

theorem finalize_stalled (fs : String → Option String) (tm : List (String × Task)) (e : Exec) :
    (finalize fs tm e).stalled = e.stalled := rfl

theorem finalize_status (fs : String → Option String) (tm : List (String × Task)) (e : Exec) :
    (finalize fs tm e).wf.status =
      if e.failedL = [] then STATUS_COMPLETED else STATUS_FAILED := rfl

theorem finalize_final_result_failed (fs : String → Option String) (tm : List (String × Task))
    (e : Exec) (h : e.failedL ≠ []) :
    (finalize fs tm e).wf.final_result =
      some ("Workflow failed. See logs for details. Failed tasks: " ++
        String.intercalate ", " e.failedL) := by
  unfold finalize
  dsimp only
  rw [if_neg h]
  rw [if_neg (show ¬ (STATUS_FAILED = STATUS_COMPLETED) by decide)]
  rfl

/-! ## The failed-classification invariant (for C3) -/

theorem mem_failedOf_of_entry {sts : List (String × String)} {tid s : String}
    (h : (tid, s) ∈ sts) (hs : s = STATUS_FAILED ∨ s = STATUS_SKIPPED) :
    tid ∈ failedOf sts := by
  rw [failedOf, List.mem_filterMap]
  refine ⟨(tid, s), h, ?_⟩
  rcases hs with rfl | rfl <;> simp

theorem mem_pendingIdsOf_of_lookup {sts : List (String × String)} {tid : String}
    (h : List.lookup tid sts = some STATUS_PENDING) : tid ∈ pendingIdsOf sts := by
  rw [pendingIdsOf, List.mem_filterMap]
  exact ⟨(tid, STATUS_PENDING), mem_of_lookup_eq_some h, by simp⟩

theorem failStat_set_add (sts : List (String × String)) (fl : List String) (tid v : String)
    (h : ∀ tid' s, List.lookup tid' sts = some s →
      (s = STATUS_FAILED ∨ s = STATUS_SKIPPED) → tid' ∈ fl) :
    ∀ tid' s, List.lookup tid' (setA sts tid v) = some s →
      (s = STATUS_FAILED ∨ s = STATUS_SKIPPED) → tid' ∈ addSet fl tid := by
  intro tid' s hl hfs
  by_cases ht : tid' = tid
  · subst ht
    exact addSet_self_mem _ _
  · rw [lookup_setA_ne _ _ _ _ ht] at hl
    exact addSet_sub _ _ (h _ _ hl hfs)

theorem failStat_set_nonfail (sts : List (String × String)) (fl : List String) (tid v : String)
    (h : ∀ tid' s, List.lookup tid' sts = some s →
      (s = STATUS_FAILED ∨ s = STATUS_SKIPPED) → tid' ∈ fl)
    (hv1 : v ≠ STATUS_FAILED) (hv2 : v ≠ STATUS_SKIPPED) :
    ∀ tid' s, List.lookup tid' (setA sts tid v) = some s →
      (s = STATUS_FAILED ∨ s = STATUS_SKIPPED) → tid' ∈ fl := by
  intro tid' s hl hfs
  by_cases ht : tid' = tid
  · subst ht
    rw [lookup_setA_self] at hl
    have hv := Option.some.inj hl
    subst hv
    rcases hfs with rfl | rfl
    · exact absurd rfl hv1
    · exact absurd rfl hv2
  · rw [lookup_setA_ne _ _ _ _ ht] at hl
    exact h _ _ hl hfs

theorem failStat_stall (sts : List (String × String)) (fl : List String)
    (h : ∀ tid' s, List.lookup tid' sts = some s →
      (s = STATUS_FAILED ∨ s = STATUS_SKIPPED) → tid' ∈ fl) :
    ∀ tid' s, List.lookup tid'
        (mapVal (fun s => if s = STATUS_PENDING then STATUS_FAILED else s) sts) = some s →
      (s = STATUS_FAILED ∨ s = STATUS_SKIPPED) →
      tid' ∈ (pendingIdsOf sts).foldl addSet fl := by
  intro tid' s hl hfs
  rw [lookup_mapVal] at hl
  cases hv : List.lookup tid' sts with
  | none =>
    rw [hv] at hl
    cases hl
  | some v =>
    rw [hv] at hl
    simp only [Option.map_some'] at hl
    have hvs := Option.some.inj hl
    rw [foldl_addSet_mem]
    by_cases hp : v = STATUS_PENDING
    · refine Or.inr (mem_pendingIdsOf_of_lookup ?_)
      rw [hv, hp]
    · rw [if_neg hp] at hvs
      subst hvs
      exact Or.inl (h _ _ hv hfs)

theorem readyPass_fs (ents : List (String × Task)) :
    ∀ (e : Exec) (ready : List String), ExecFailStat e →
      ExecFailStat (readyPass ents e ready).1 := by
  induction ents with
  | nil =>
    intro e ready h
    simpa [readyPass] using h
  | cons ent rest ih =>
    intro e ready h
    obtain ⟨tid, tob⟩ := ent
    rw [readyPass]
    split
    · split
      · exact ih _ _ h
      · split
        · refine ih _ _ ?_
          intro tid' s hl hfs
          exact failStat_set_add e.wf.step_statuses e.failedL tid STATUS_SKIPPED h _ _ hl hfs
        · exact ih _ _ h
    · exact ih _ _ h

theorem stallCheck_fs (total : Nat) (ready : List String) (e : Exec)
    (h : ExecFailStat e) : ExecFailStat (stallCheck total ready e) := by
  unfold stallCheck
  split
  · split
    · unfold stallApply
      dsimp only
      intro tid' s hl hfs
      exact failStat_stall e.wf.step_statuses e.failedL h _ _ hl hfs
    · exact h
  · exact h

theorem launchPass_fs (tm : List (String × Task)) :
    ∀ (ready : List String) (e : Exec), ExecFailStat e →
      ExecFailStat (launchPass tm ready e) := by
  intro ready
  induction ready with
  | nil =>
    intro e h
    simpa [launchPass] using h
  | cons tid rest ih =>
    intro e h
    rw [launchPass]
    split
    · exact ih _ h
    · refine ih _ ?_
      intro tid' s hl hfs
      exact failStat_set_nonfail e.wf.step_statuses e.failedL tid STATUS_RUNNING h
        (by decide) (by decide) _ _ hl hfs

theorem handleDone_fs (tm : List (String × Task)) (e : Exec) (tid : String)
    (oc : ExecOutcome) (h : ExecFailStat e) : ExecFailStat (handleDone tm e tid oc) := by
  unfold handleDone
  split
  · cases oc with
    | success o =>
      intro tid' s hl hfs
      exact failStat_set_nonfail e.wf.step_statuses e.failedL tid STATUS_COMPLETED h
        (by decide) (by decide) _ _ hl hfs
    | failure err =>
      intro tid' s hl hfs
      exact failStat_set_add e.wf.step_statuses e.failedL tid STATUS_FAILED h _ _ hl hfs
  · exact h

theorem doneFold_fs (tm : List (String × Task)) :
    ∀ (dl : List (String × ExecOutcome)) (e : Exec), ExecFailStat e →
      ExecFailStat (doneFold tm dl e) := by
  intro dl
  induction dl with
  | nil =>
    intro e h
    simpa [doneFold] using h
  | cons d rest ih =>
    intro e h
    rw [doneFold]
    exact ih _ (handleDone_fs _ _ _ _ h)

theorem timeoutOne_fs (tm : List (String × Task)) (e : Exec) (tid : String)
    (h : ExecFailStat e) : ExecFailStat (timeoutOne tm e tid) := by
  intro tid' s hl hfs
  exact failStat_set_add e.wf.step_statuses e.failedL tid STATUS_FAILED h _ _ hl hfs

theorem timeoutFold_fs (tm : List (String × Task)) :
    ∀ (ids : List String) (e : Exec), ExecFailStat e →
      ExecFailStat (timeoutFold tm ids e) := by
  intro ids
  induction ids with
  | nil =>
    intro e h
    simpa [timeoutFold] using h
  | cons tid rest ih =>
    intro e h
    rw [timeoutFold]
    exact ih _ (timeoutOne_fs _ _ _ h)

theorem harvest_fs (tm : List (String × Task)) (orc : List (String × ExecOutcome))
    (e : Exec) (h : ExecFailStat e) : ExecFailStat (harvest tm orc e) := by
  unfold harvest
  split
  · exact h
  · exact timeoutFold_fs _ _ _ (doneFold_fs _ _ _ h)

theorem round_fs (tm : List (String × Task)) (total : Nat)
    (orc : List (String × ExecOutcome)) (e : Exec) (h : ExecFailStat e) :
    ExecFailStat (round tm total orc e) := by
  unfold round
  dsimp only
  split
  · exact stallCheck_fs _ _ _ (readyPass_fs _ _ _ h)
  · exact harvest_fs _ _ _ (launchPass_fs _ _ _ (stallCheck_fs _ _ _ (readyPass_fs _ _ _ h)))

theorem execRounds_fs (tm : List (String × Task)) (total : Nat) :
    ∀ (orcs : List (List (String × ExecOutcome))) (e : Exec), ExecFailStat e →
      ExecFailStat (execRounds tm total orcs e) := by
  intro orcs
  induction orcs with
  | nil =>
    intro e h
    simpa [execRounds] using h
  | cons orc rest ih =>
    intro e h
    rw [execRounds]
    split
    · exact h
    · split
      · exact ih _ (round_fs _ _ _ _ h)
      · exact h

theorem initExec_fs (wf0 : WorkflowState) (total : Nat) : ExecFailStat (initExec wf0 total) := by
  intro tid s hl hfs
  show tid ∈ failedOf wf0.step_statuses
  have hl' : List.lookup tid (resetRunningStatuses wf0.step_statuses) = some s := hl
  rw [resetRunningStatuses, lookup_mapVal] at hl'
  cases hv : List.lookup tid wf0.step_statuses with
  | none =>
    rw [hv] at hl'
    cases hl'
  | some v =>
    rw [hv] at hl'
    simp only [Option.map_some'] at hl'
    have hvs := Option.some.inj hl'
    by_cases hr : v = STATUS_RUNNING
    · rw [if_pos hr] at hvs
      subst hvs
      rcases hfs with h1 | h1 <;> exact absurd h1 (by decide)
    · rw [if_neg hr] at hvs
      subst hvs
      exact mem_failedOf_of_entry (mem_of_lookup_eq_some hv) hfs

theorem execRounds_not_cond (tm : List (String × Task)) (total : Nat)
    (orcs : List (List (String × ExecOutcome))) (e : Exec)
    (h : loopCond total e = false) : execRounds tm total orcs e = e := by
  cases orcs with
  | nil => rfl
  | cons orc rest =>
    rw [execRounds]
    split
    · rfl
    · rw [if_neg (by simp [h])]

/-! ## C3: overall-status classification -/

/-- C3 (amended): the overall status after the run is `failed` iff the
failed-classification set is nonempty — i.e. iff some task was at some point
marked `failed` or `skipped`; every task ending in status `failed` or
`skipped` forces the overall status to `failed`; and a zero-task plan exits
the loop immediately with overall status `completed` and no dispatch.  (The
converse of the claimed "iff" fails: a timed-out task that later completes
keeps its failed classification while ending `completed`.) -/
theorem overall_status_amended (fs : String → Option String)
    (orcs : List (List (String × ExecOutcome))) (wf0 : WorkflowState) (p : TasksOutput)
    (hp : wf0.plan = some p) (hacc : wf0.accepted_plan = true) :
    ((execute_plan fs orcs wf0).1.wf.status = STATUS_FAILED ↔
      (execute_plan fs orcs wf0).1.failedL ≠ []) ∧
    (∀ tid s, List.lookup tid (execute_plan fs orcs wf0).1.wf.step_statuses = some s →
      (s = STATUS_FAILED ∨ s = STATUS_SKIPPED) →
      (execute_plan fs orcs wf0).1.wf.status = STATUS_FAILED) ∧
    (p.tasks = [] → wf0.step_statuses = [] →
      (execute_plan fs orcs wf0).1.wf.status = STATUS_COMPLETED ∧
      hasDispatch (execute_plan fs orcs wf0).1.events = false) := by
  rw [execute_plan_accepted_eq fs orcs wf0 p hp hacc]
  unfold execute_planAccepted
  dsimp only
  have hiff : ∀ e : Exec, ((finalize fs (tasksMapOf p.tasks) e).wf.status = STATUS_FAILED ↔
      (finalize fs (tasksMapOf p.tasks) e).failedL ≠ []) := by
    intro e
    rw [finalize_status, finalize_failedL]
    by_cases hfl : e.failedL = []
    · rw [if_pos hfl]
      constructor
      · intro h
        exact absurd h (by decide)
      · intro h
        exact absurd hfl h
    · rw [if_neg hfl]
      exact ⟨fun _ => hfl, fun _ => rfl⟩
  refine ⟨hiff _, ?_, ?_⟩
  · intro tid s hl hfs
    rw [finalize_statuses] at hl
    have hstat : ExecFailStat
        (execRounds (tasksMapOf p.tasks) (tasksMapOf p.tasks).length orcs
          (initExec wf0 (tasksMapOf p.tasks).length)) :=
      execRounds_fs _ _ _ _ (initExec_fs _ _)
    have hmem := hstat _ _ hl hfs
    rw [hiff _, finalize_failedL]
    intro hempty
    rw [hempty] at hmem
    simp at hmem
  · intro hpt hst
    have htm : tasksMapOf p.tasks = [] := by rw [hpt]; rfl
    have hcond : loopCond (tasksMapOf p.tasks).length
        (initExec wf0 (tasksMapOf p.tasks).length) = false := by
      rw [htm]
      simp [loopCond, initExec, emitCb, emitSave, hst, completedOf, failedOf]
    rw [execRounds_not_cond _ _ _ _ hcond]
    constructor
    · rw [finalize_status]
      have hfl : (initExec wf0 (tasksMapOf p.tasks).length).failedL = [] := by
        show failedOf wf0.step_statuses = []
        rw [hst]
        rfl
      rw [hfl]
      simp
    · rfl

/-- C3 witness: the amended statement at the concrete two-task run where A
fails and B is skipped. -/
theorem overall_status_amended_witness :
    ((runC4.1.wf.status = STATUS_FAILED ↔ runC4.1.failedL ≠ []) ∧
     (∀ tid s, List.lookup tid runC4.1.wf.step_statuses = some s →
       (s = STATUS_FAILED ∨ s = STATUS_SKIPPED) → runC4.1.wf.status = STATUS_FAILED) ∧
     (planC4tasks = [] → (freshWf "s4" planC4tasks).step_statuses = [] →
       runC4.1.wf.status = STATUS_COMPLETED ∧ hasDispatch runC4.1.events = false)) :=
  overall_status_amended noFs [[("A", ExecOutcome.failure "boom")], []]
    (freshWf "s4" planC4tasks) ⟨planC4tasks, "s"⟩ rfl rfl

/-! ## C4: failure final result -/

/-- C4 (amended): whenever the run ends with a nonempty failed set (overall
status `failed`), the final result is the terse message naming the failed
tasks — "Workflow failed. See logs for details. Failed tasks: ..." — and not
the per-task fallback summary, which is generated only for completed runs
lacking a synthesis result. -/
theorem failure_final_result_amended (fs : String → Option String)
    (orcs : List (List (String × ExecOutcome))) (wf0 : WorkflowState) (p : TasksOutput)
    (hp : wf0.plan = some p) (hacc : wf0.accepted_plan = true)
    (hfail : (execute_plan fs orcs wf0).1.failedL ≠ []) :
    (execute_plan fs orcs wf0).1.wf.final_result =
      some ("Workflow failed. See logs for details. Failed tasks: " ++
        String.intercalate ", " (execute_plan fs orcs wf0).1.failedL) ∧
    (execute_plan fs orcs wf0).1.wf.status = STATUS_FAILED := by
  rw [execute_plan_accepted_eq fs orcs wf0 p hp hacc] at hfail ⊢
  unfold execute_planAccepted at hfail ⊢
  dsimp only at hfail ⊢
  rw [finalize_failedL] at hfail ⊢
  refine ⟨finalize_final_result_failed _ _ _ hfail, ?_⟩
  rw [finalize_status, if_neg hfail]

/-- C4 witness: the amended statement at the concrete two-task run where A
fails and B is skipped. -/
theorem failure_final_result_amended_witness :
    runC4.1.wf.final_result =
      some ("Workflow failed. See logs for details. Failed tasks: " ++
        String.intercalate ", " runC4.1.failedL) ∧
    runC4.1.wf.status = STATUS_FAILED :=
  failure_final_result_amended noFs [[("A", ExecOutcome.failure "boom")], []]
    (freshWf "s4" planC4tasks) ⟨planC4tasks, "s"⟩ rfl rfl (by decide)

/-! ## C8: timeout handling -/

/-- C8 (amended): the handling of a task whose invocation is still
unfinished when the 60-unit wait window expires (lines 290-299) marks the
task `failed`, adds it to the failed-classification set, fires the progress
callback and requests best-effort cancellation — but, contrary to the claim,
does NOT persist the state (the handler emits no save), and the invocation
stays in `running_async_tasks`. -/
theorem timeout_handling_amended (tm : List (String × Task)) (e : Exec) (tid : String)
    (task : Task) (hlk : List.lookup tid tm = some task) :
    (timeoutOne tm e tid).wf.step_statuses = setA e.wf.step_statuses tid STATUS_FAILED ∧
    tid ∈ (timeoutOne tm e tid).failedL ∧
    (timeoutOne tm e tid).events = e.events ++
      [Event.cb ("Failed task '" ++ task.title ++ "' (timeout)"), Event.cancelEv tid] ∧
    (timeoutOne tm e tid).runningM = e.runningM ∧
    savesOf (timeoutOne tm e tid).events = savesOf e.events := by
  have htitle : titleOf tm tid = task.title := by rw [titleOf, hlk]
  refine ⟨rfl, ?_, ?_, rfl, ?_⟩
  · show tid ∈ addSet e.failedL tid
    exact addSet_self_mem _ _
  · show (e.events ++ [Event.cb ("Failed task '" ++ titleOf tm tid ++ "' (timeout)")]) ++
      [Event.cancelEv tid] = _
    rw [htitle, List.append_assoc]
    rfl
  · show savesOf ((e.events ++ [Event.cb ("Failed task '" ++ titleOf tm tid ++ "' (timeout)")]) ++
      [Event.cancelEv tid]) = savesOf e.events
    rw [savesOf_append, savesOf_append, savesOf_cb, savesOf_cancel]
    simp

/-- C8 witness: the timeout handler applied to the concrete one-task session
just before its loop. -/
theorem timeout_handling_amended_witness :
    (timeoutOne (tasksMapOf [mkTask "A" []]) (initExec (freshWf "s8" [mkTask "A" []]) 1)
        "A").wf.step_statuses =
      setA (initExec (freshWf "s8" [mkTask "A" []]) 1).wf.step_statuses "A" STATUS_FAILED ∧
    "A" ∈ (timeoutOne (tasksMapOf [mkTask "A" []])
      (initExec (freshWf "s8" [mkTask "A" []]) 1) "A").failedL ∧
    (timeoutOne (tasksMapOf [mkTask "A" []]) (initExec (freshWf "s8" [mkTask "A" []]) 1)
        "A").events =
      (initExec (freshWf "s8" [mkTask "A" []]) 1).events ++
        [Event.cb ("Failed task '" ++ (mkTask "A" []).title ++ "' (timeout)"),
         Event.cancelEv "A"] ∧
    (timeoutOne (tasksMapOf [mkTask "A" []]) (initExec (freshWf "s8" [mkTask "A" []]) 1)
        "A").runningM = (initExec (freshWf "s8" [mkTask "A" []]) 1).runningM ∧
    savesOf (timeoutOne (tasksMapOf [mkTask "A" []])
        (initExec (freshWf "s8" [mkTask "A" []]) 1) "A").events =
      savesOf (initExec (freshWf "s8" [mkTask "A" []]) 1).events :=
  timeout_handling_amended (tasksMapOf [mkTask "A" []])
    (initExec (freshWf "s8" [mkTask "A" []]) 1) "A" (mkTask "A" []) (by decide)

/-! ## C6: re-invocation on a terminal session -/

theorem resetRunning_id (sts : List (String × String))
    (h : ∀ q ∈ sts, q.2 ≠ STATUS_RUNNING) : resetRunningStatuses sts = sts := by
  rw [resetRunningStatuses]
  induction sts with
  | nil => rfl
  | cons q t ih =>
    simp only [mapVal, List.map_cons] at *
    rw [if_neg (h q (by simp)), ih (fun r hr => h r (List.mem_cons_of_mem _ hr))]

/-- C6 (amended): re-invoking the scheduler on a session whose persisted
state has every task in a terminal status dispatches no task to the executor
and leaves every task status unchanged (the final result, however, is
recomputed from the terminal state rather than returned verbatim — see the
counterexample). -/
theorem terminal_rerun_no_dispatch (fs : String → Option String)
    (orcs : List (List (String × ExecOutcome))) (wf0 : WorkflowState) (p : TasksOutput)
    (hp : wf0.plan = some p) (hacc : wf0.accepted_plan = true)
    (hkeys : wf0.step_statuses.map Prod.fst = p.tasks.map Task.id)
    (hnd : (p.tasks.map Task.id).Nodup)
    (hterm : ∀ q ∈ wf0.step_statuses,
      q.2 = STATUS_COMPLETED ∨ q.2 = STATUS_FAILED ∨ q.2 = STATUS_SKIPPED) :
    hasDispatch (execute_plan fs orcs wf0).1.events = false ∧
    (execute_plan fs orcs wf0).1.wf.step_statuses = wf0.step_statuses := by
  rw [execute_plan_accepted_eq fs orcs wf0 p hp hacc]
  unfold execute_planAccepted
  dsimp only
  have hlen : (completedOf wf0.step_statuses).length + (failedOf wf0.step_statuses).length
      = wf0.step_statuses.length := terminal_partition_length _ hterm
  have html : (tasksMapOf p.tasks).length = wf0.step_statuses.length := by
    rw [tasksMapOf_eq_map p.tasks hnd, List.length_map]
    have h2 := congrArg List.length hkeys
    simp only [List.length_map] at h2
    exact h2.symm
  have hcond : loopCond (tasksMapOf p.tasks).length
      (initExec wf0 (tasksMapOf p.tasks).length) = false := by
    unfold loopCond
    rw [decide_eq_false_iff_not]
    show ¬ ((completedOf wf0.step_statuses).length + (failedOf wf0.step_statuses).length <
      (tasksMapOf p.tasks).length)
    omega
  rw [execRounds_not_cond _ _ _ _ hcond]
  constructor
  · rfl
  · rw [finalize_statuses]
    show resetRunningStatuses wf0.step_statuses = wf0.step_statuses
    refine resetRunning_id _ ?_
    intro q hq
    rcases hterm q hq with h1 | h1 | h1 <;> rw [h1] <;> decide

/-- C6 witness: the amended statement at the concrete terminal session of
the counterexample (both tasks `failed`). -/
theorem terminal_rerun_no_dispatch_witness :
    hasDispatch (execute_plan noFs [] runC6first.1.wf).1.events = false ∧
    (execute_plan noFs [] runC6first.1.wf).1.wf.step_statuses =
      runC6first.1.wf.step_statuses :=
  terminal_rerun_no_dispatch noFs [] runC6first.1.wf ⟨planC6tasks, "s"⟩
    (by decide) (by decide) (by decide) (by decide) (by decide)

/-! ## Helper lemmas for the core scheduler invariant (C1, C2) -/

theorem not_dispatch_save (w : WorkflowState) :
    ∀ ev ∈ [Event.saveEv w], ∀ tid snap, ev ≠ Event.dispatch tid snap := by
  intro ev hev tid snap
  simp only [List.mem_singleton] at hev
  subst hev
  exact fun h => Event.noConfusion h

theorem not_dispatch_cb (m : String) :
    ∀ ev ∈ [Event.cb m], ∀ tid snap, ev ≠ Event.dispatch tid snap := by
  intro ev hev tid snap
  simp only [List.mem_singleton] at hev
  subst hev
  exact fun h => Event.noConfusion h

theorem not_dispatch_cancel (c : String) :
    ∀ ev ∈ [Event.cancelEv c], ∀ tid snap, ev ≠ Event.dispatch tid snap := by
  intro ev hev tid snap
  simp only [List.mem_singleton] at hev
  subst hev
  exact fun h => Event.noConfusion h

theorem dispOk_append (tm : List (String × Task)) (evs tl : List Event)
    (h : DispOk tm evs)
    (htl : ∀ ev ∈ tl, ∀ tid snap, ev ≠ Event.dispatch tid snap) :
    DispOk tm (evs ++ tl) := by
  intro ev hev tid snap heq d hd
  rcases List.mem_append.1 hev with h1 | h1
  · exact h ev h1 tid snap heq d hd
  · exact absurd heq (htl ev h1 tid snap)

theorem dispOk_append_dispatch (tm : List (String × Task)) (evs : List Event)
    (tid : String) (snap : List (String × String))
    (h : DispOk tm evs)
    (hsnap : ∀ d ∈ depsOf tm tid, List.lookup d snap = some STATUS_COMPLETED) :
    DispOk tm (evs ++ [Event.dispatch tid snap]) := by
  intro ev hev t s heq d hd
  rcases List.mem_append.1 hev with h1 | h1
  · exact h ev h1 t s heq d hd
  · simp only [List.mem_singleton] at h1
    subst h1
    cases heq
    exact hsnap d hd

theorem nodup_append_singleton {l : List String} {x : String} (h : l.Nodup) (hx : x ∉ l) :
    (l ++ [x]).Nodup := by
  rw [List.nodup_append]
  refine ⟨h, List.nodup_singleton x, ?_⟩
  intro a ha hax
  simp only [List.mem_singleton] at hax
  subst hax
  exact hx ha

theorem lookup_mapVal_eq_some {f : String → String} {sts : List (String × String)}
    {m s : String} (h : List.lookup m (mapVal f sts) = some s) :
    ∃ v, List.lookup m sts = some v ∧ f v = s := by
  rw [lookup_mapVal] at h
  cases hv : List.lookup m sts with
  | none =>
    rw [hv] at h
    cases h
  | some v =>
    rw [hv] at h
    simp only [Option.map_some'] at h
    exact ⟨v, rfl, Option.some.inj h⟩

theorem completedOf_spec {sts : List (String × String)} {m : String} :
    m ∈ completedOf sts ↔ ∃ q ∈ sts, q.1 = m ∧ q.2 = STATUS_COMPLETED := by
  rw [completedOf, List.mem_filterMap]
  constructor
  · rintro ⟨q, hq, hq2⟩
    by_cases h : q.2 = STATUS_COMPLETED
    · rw [if_pos h] at hq2
      exact ⟨q, hq, Option.some.inj hq2, h⟩
    · rw [if_neg h] at hq2
      cases hq2
  · rintro ⟨q, hq, h1, h2⟩
    exact ⟨q, hq, by rw [if_pos h2, h1]⟩

theorem lookup_map_const {ts : List Task} {v tid s : String}
    (h : List.lookup tid (ts.map fun t => (t.id, v)) = some s) : s = v := by
  induction ts with
  | nil => cases h
  | cons t rest ih =>
    simp only [List.map_cons] at h
    by_cases ht : tid = t.id
    · rw [ht, lookup_cons_self] at h
      exact (Option.some.inj h).symm
    · rw [lookup_cons_ne _ _ _ _ ht] at h
      exact ih h

theorem completedOf_map_pending (ts : List Task) :
    completedOf (ts.map fun t => (t.id, STATUS_PENDING)) = [] := by
  induction ts with
  | nil => rfl
  | cons t rest ih =>
    simp only [completedOf, List.map_cons, List.filterMap_cons] at *
    rw [if_neg (show ¬ (STATUS_PENDING = STATUS_COMPLETED) by decide)]
    exact ih

theorem failedOf_map_pending (ts : List Task) :
    failedOf (ts.map fun t => (t.id, STATUS_PENDING)) = [] := by
  induction ts with
  | nil => rfl
  | cons t rest ih =>
    simp only [failedOf, List.map_cons, List.filterMap_cons] at *
    rw [if_neg (show ¬ (STATUS_PENDING = STATUS_FAILED ∨ STATUS_PENDING = STATUS_SKIPPED)
      by decide)]
    exact ih

theorem compStat_setA_of_ne (sts : List (String × String)) (cl : List String)
    (tid v : String)
    (h : ∀ m ∈ cl, List.lookup m sts = some STATUS_COMPLETED)
    (hnc : List.lookup tid sts ≠ some STATUS_COMPLETED) :
    ∀ m ∈ cl, List.lookup m (setA sts tid v) = some STATUS_COMPLETED := by
  intro m hm
  have hne : m ≠ tid := by
    intro heq
    rw [heq] at hm
    exact hnc (h tid hm)
  rw [lookup_setA_ne _ _ _ _ hne]
  exact h m hm

theorem statComp_setA_ne (sts : List (String × String)) (cl : List String)
    (tid v : String)
    (h : ∀ m, List.lookup m sts = some STATUS_COMPLETED → m ∈ cl)
    (hv : v ≠ STATUS_COMPLETED) :
    ∀ m, List.lookup m (setA sts tid v) = some STATUS_COMPLETED → m ∈ cl := by
  intro m hm
  by_cases hmt : m = tid
  · subst hmt
    rw [lookup_setA_self] at hm
    exact absurd (Option.some.inj hm) hv
  · rw [lookup_setA_ne _ _ _ _ hmt] at hm
    exact h m hm

theorem statRun_setA (sts : List (String × String)) (rm rm' : List String)
    (tid v : String)
    (h : ∀ m, List.lookup m sts = some STATUS_RUNNING → m ∈ rm)
    (hsub : ∀ m ∈ rm, m ≠ tid → m ∈ rm')
    (hv : v = STATUS_RUNNING → tid ∈ rm') :
    ∀ m, List.lookup m (setA sts tid v) = some STATUS_RUNNING → m ∈ rm' := by
  intro m hm
  by_cases hmt : m = tid
  · subst hmt
    rw [lookup_setA_self] at hm
    exact hv (Option.some.inj hm)
  · rw [lookup_setA_ne _ _ _ _ hmt] at hm
    exact hsub _ (h m hm) hmt

theorem zf_setA_of_ne (sts : List (String × String)) (rm : List String) (tid v : String)
    (h : ∀ m ∈ rm, List.lookup m sts = some STATUS_FAILED)
    (hnf : List.lookup tid sts ≠ some STATUS_FAILED) :
    ∀ m ∈ rm, List.lookup m (setA sts tid v) = some STATUS_FAILED := by
  intro m hm
  have hne : m ≠ tid := by
    intro heq
    rw [heq] at hm
    exact hnf (h tid hm)
  rw [lookup_setA_ne _ _ _ _ hne]
  exact h m hm

theorem stallCheck_cases (total : Nat) (ready : List String) (e : Exec) :
    stallCheck total ready e = e ∨
    (e.runningM = [] ∧ stallCheck total ready e = stallApply total e) := by
  unfold stallCheck
  split
  next hc =>
    split
    · exact Or.inr ⟨hc.2, rfl⟩
    · exact Or.inl rfl
  next => exact Or.inl rfl

theorem tasksMapOf_self (ts : List Task) :
    ∀ q ∈ tasksMapOf ts, List.lookup q.1 (tasksMapOf ts) = some q.2 :=
  fun q hq => lookup_eq_of_mem_nodup (tasksMapOf_keys_nodup ts) hq

theorem readyPass_inv (tm : List (String × Task)) :
    ∀ (ents : List (String × Task)) (e : Exec) (ready : List String),
      (∀ q ∈ ents, List.lookup q.1 tm = some q.2) →
      ((ents.map Prod.fst).Nodup) →
      (∀ i ∈ ready, i ∉ ents.map Prod.fst) →
      Inv tm e → ZombieFailed e → ReadyFacts tm e ready →
      Inv tm (readyPass ents e ready).1 ∧ ZombieFailed (readyPass ents e ready).1 ∧
      ReadyFacts tm (readyPass ents e ready).1 (readyPass ents e ready).2 ∧
      (readyPass ents e ready).1.completedL = e.completedL ∧
      (readyPass ents e ready).1.runningM = e.runningM := by
  intro ents
  induction ents with
  | nil =>
    intro e ready hsub hknd hdisj h hz hrf
    exact ⟨h, hz, hrf, rfl, rfl⟩
  | cons ent rest ih =>
    intro e ready hsub hknd hdisj h hz hrf
    obtain ⟨tid, tob⟩ := ent
    have hsubr : ∀ q ∈ rest, List.lookup q.1 tm = some q.2 :=
      fun q hq => hsub q (List.mem_cons_of_mem _ hq)
    have hknd' : tid ∉ rest.map Prod.fst ∧ (rest.map Prod.fst).Nodup := by
      simpa using hknd
    have hdisjr : ∀ i ∈ ready, i ∉ rest.map Prod.fst :=
      fun i hi hm => hdisj i hi (by simp [hm])
    have hdeps_eq : depsOf tm tid = tob.dependencies := by
      rw [depsOf, hsub (tid, tob) (by simp)]
    rw [readyPass]
    split
    next hpend =>
      split
      next hall =>
        refine ih e (ready ++ [tid]) hsubr hknd'.2 ?_ h hz ?_
        · intro i hi
          rcases List.mem_append.1 hi with h1 | h1
          · exact hdisjr i h1
          · simp only [List.mem_singleton] at h1
            subst h1
            exact hknd'.1
        · obtain ⟨hnd, hfacts⟩ := hrf
          refine ⟨?_, ?_⟩
          · refine nodup_append_singleton hnd ?_
            intro hmem
            exact hdisj tid hmem (by simp)
          · intro i hi
            rcases List.mem_append.1 hi with h1 | h1
            · exact hfacts i h1
            · simp only [List.mem_singleton] at h1
              subst h1
              refine ⟨hpend, ?_⟩
              rw [hdeps_eq]
              intro d hd
              exact of_decide_eq_true (List.all_eq_true.1 hall d hd)
      next hall =>
        split
        next hany =>
          have hnc : List.lookup tid e.wf.step_statuses ≠ some STATUS_COMPLETED := by
            rw [hpend]
            intro hcon
            exact absurd (Option.some.inj hcon) (by decide)
          have hnf : List.lookup tid e.wf.step_statuses ≠ some STATUS_FAILED := by
            rw [hpend]
            intro hcon
            exact absurd (Option.some.inj hcon) (by decide)
          refine ih _ ready hsubr hknd'.2 hdisjr ⟨?_, ?_, ?_, ?_, ?_, ?_, ?_, ?_⟩ ?_ ?_
          · exact compStat_setA_of_ne e.wf.step_statuses e.completedL tid STATUS_SKIPPED
              h.compStat hnc
          · exact statComp_setA_ne e.wf.step_statuses e.completedL tid STATUS_SKIPPED
              h.statComp (by decide)
          · exact statRun_setA e.wf.step_statuses e.runningM e.runningM tid STATUS_SKIPPED
              h.statRun (fun m hm _ => hm) (fun hv => absurd hv (by decide))
          · exact h.runNodup
          · exact h.runNotComp
          · exact h.runDeps
          · exact h.compClosed
          · exact dispOk_append tm _ _ (dispOk_append tm _ _ h.dispOk (not_dispatch_save _))
              (not_dispatch_cb _)
          · exact zf_setA_of_ne e.wf.step_statuses e.runningM tid STATUS_SKIPPED hz hnf
          · obtain ⟨hnd, hfacts⟩ := hrf
            refine ⟨hnd, ?_⟩
            intro i hi
            have hne : i ≠ tid := by
              intro heq
              exact hdisj i hi (by simp [heq])
            obtain ⟨hp, hd⟩ := hfacts i hi
            refine ⟨?_, hd⟩
            show List.lookup i (setA e.wf.step_statuses tid STATUS_SKIPPED) =
              some STATUS_PENDING
            rw [lookup_setA_ne _ _ _ _ hne]
            exact hp
        next hany =>
          exact ih e ready hsubr hknd'.2 hdisjr h hz hrf
    next hpend =>
      exact ih e ready hsubr hknd'.2 hdisjr h hz hrf

theorem launchPass_inv (tm : List (String × Task)) :
    ∀ (ready : List String) (e : Exec),
      Inv tm e → ReadyFacts tm e ready →
      Inv tm (launchPass tm ready e) ∧
      (launchPass tm ready e).completedL = e.completedL := by
  intro ready
  induction ready with
  | nil =>
    intro e h _
    exact ⟨h, rfl⟩
  | cons tid rest ih =>
    intro e h hrf
    obtain ⟨hnd, hfacts⟩ := hrf
    have hndr : tid ∉ rest ∧ rest.Nodup := by simpa using hnd
    rw [launchPass]
    split
    next hmem =>
      exact ih e h ⟨hndr.2, fun i hi => hfacts i (List.mem_cons_of_mem _ hi)⟩
    next hmem =>
      obtain ⟨hpend, hdeps⟩ := hfacts tid (by simp)
      have hnc : tid ∉ e.completedL := by
        intro hc
        have h2 := h.compStat tid hc
        rw [hpend] at h2
        exact absurd (Option.some.inj h2) (by decide)
      have hncs : List.lookup tid e.wf.step_statuses ≠ some STATUS_COMPLETED := by
        rw [hpend]
        intro hcon
        exact absurd (Option.some.inj hcon) (by decide)
      have hsnap : ∀ d ∈ depsOf tm tid,
          List.lookup d (setA e.wf.step_statuses tid STATUS_RUNNING) =
            some STATUS_COMPLETED := by
        intro d hd
        have hdl := h.compStat d (hdeps d hd)
        have hne : d ≠ tid := by
          intro heq
          rw [heq] at hdl
          rw [hpend] at hdl
          exact absurd (Option.some.inj hdl) (by decide)
        rw [lookup_setA_ne _ _ _ _ hne]
        exact hdl
      refine ih _ ⟨?_, ?_, ?_, ?_, ?_, ?_, ?_, ?_⟩ ⟨hndr.2, ?_⟩
      · exact compStat_setA_of_ne e.wf.step_statuses e.completedL tid STATUS_RUNNING
          h.compStat hncs
      · exact statComp_setA_ne e.wf.step_statuses e.completedL tid STATUS_RUNNING
          h.statComp (by decide)
      · exact statRun_setA e.wf.step_statuses e.runningM (e.runningM ++ [tid]) tid
          STATUS_RUNNING h.statRun (fun m hm _ => List.mem_append_left _ hm)
          (fun _ => List.mem_append_right _ (by simp))
      · exact nodup_append_singleton h.runNodup hmem
      · intro m hm
        rcases List.mem_append.1 hm with h1 | h1
        · exact h.runNotComp m h1
        · simp only [List.mem_singleton] at h1
          subst h1
          exact hnc
      · intro m hm
        rcases List.mem_append.1 hm with h1 | h1
        · exact h.runDeps m h1
        · simp only [List.mem_singleton] at h1
          subst h1
          exact hdeps
      · exact h.compClosed
      · exact dispOk_append_dispatch tm _ tid _
          (dispOk_append tm _ _ (dispOk_append tm _ _ h.dispOk (not_dispatch_save _))
            (not_dispatch_cb _)) hsnap
      · intro i hi
        have hne : i ≠ tid := by
          intro heq
          rw [heq] at hi
          exact hndr.1 hi
        obtain ⟨hp, hd⟩ := hfacts i (List.mem_cons_of_mem _ hi)
        refine ⟨?_, hd⟩
        show List.lookup i (setA e.wf.step_statuses tid STATUS_RUNNING) =
          some STATUS_PENDING
        rw [lookup_setA_ne _ _ _ _ hne]
        exact hp

theorem handleDone_inv (tm : List (String × Task)) (e : Exec) (tid : String)
    (oc : ExecOutcome) (h : Inv tm e) : Inv tm (handleDone tm e tid oc) := by
  unfold handleDone
  split
  next hmem =>
    have hnc : tid ∉ e.completedL := h.runNotComp tid hmem
    have hncs : List.lookup tid e.wf.step_statuses ≠ some STATUS_COMPLETED := by
      intro hcon
      exact hnc (h.statComp tid hcon)
    cases oc with
    | success o =>
      refine ⟨?_, ?_, ?_, ?_, ?_, ?_, ?_, ?_⟩
      · intro m hm
        have hm' : m ∈ addSet e.completedL tid := hm
        rcases (mem_addSet_iff _ _ _).1 hm' with h1 | h1
        · exact compStat_setA_of_ne e.wf.step_statuses e.completedL tid STATUS_COMPLETED
            h.compStat hncs m h1
        · subst h1
          show List.lookup m (setA e.wf.step_statuses m STATUS_COMPLETED) =
            some STATUS_COMPLETED
          rw [lookup_setA_self]
      · intro m hm
        have hm' : List.lookup m (setA e.wf.step_statuses tid STATUS_COMPLETED) =
          some STATUS_COMPLETED := hm
        show m ∈ addSet e.completedL tid
        by_cases hmt : m = tid
        · subst hmt
          exact addSet_self_mem _ _
        · rw [lookup_setA_ne _ _ _ _ hmt] at hm'
          exact addSet_sub _ _ (h.statComp m hm')
      · exact statRun_setA e.wf.step_statuses e.runningM (e.runningM.erase tid) tid
          STATUS_COMPLETED h.statRun
          (fun m hm hne => (List.mem_erase_of_ne hne).mpr hm)
          (fun hv => absurd hv (by decide))
      · exact h.runNodup.erase tid
      · intro m hm
        have hmr : m ∈ e.runningM := List.mem_of_mem_erase hm
        have hmne : m ≠ tid := ((List.Nodup.mem_erase_iff h.runNodup).1 hm).1
        intro hcon
        rcases (mem_addSet_iff _ _ _).1 hcon with h1 | h1
        · exact h.runNotComp m hmr h1
        · exact hmne h1
      · intro m hm d hd
        exact addSet_sub _ _ (h.runDeps m (List.mem_of_mem_erase hm) d hd)
      · intro m hm d hd
        have hm' : m ∈ addSet e.completedL tid := hm
        rcases (mem_addSet_iff _ _ _).1 hm' with h1 | h1
        · exact addSet_sub _ _ (h.compClosed m h1 d hd)
        · subst h1
          exact addSet_sub _ _ (h.runDeps m hmem d hd)
      · exact dispOk_append tm _ _
          (dispOk_append tm _ _ h.dispOk (not_dispatch_save _)) (not_dispatch_cb _)
    | failure err =>
      refine ⟨?_, ?_, ?_, ?_, ?_, ?_, ?_, ?_⟩
      · exact compStat_setA_of_ne e.wf.step_statuses e.completedL tid STATUS_FAILED
          h.compStat hncs
      · exact statComp_setA_ne e.wf.step_statuses e.completedL tid STATUS_FAILED
          h.statComp (by decide)
      · exact statRun_setA e.wf.step_statuses e.runningM (e.runningM.erase tid) tid
          STATUS_FAILED h.statRun
          (fun m hm hne => (List.mem_erase_of_ne hne).mpr hm)
          (fun hv => absurd hv (by decide))
      · exact h.runNodup.erase tid
      · intro m hm
        exact h.runNotComp m (List.mem_of_mem_erase hm)
      · intro m hm
        exact h.runDeps m (List.mem_of_mem_erase hm)
      · exact h.compClosed
      · exact dispOk_append tm _ _
          (dispOk_append tm _ _ h.dispOk (not_dispatch_save _)) (not_dispatch_cb _)
  next hmem => exact h

theorem doneFold_inv (tm : List (String × Task)) :
    ∀ (dl : List (String × ExecOutcome)) (e : Exec), Inv tm e →
      Inv tm (doneFold tm dl e) := by
  intro dl
  induction dl with
  | nil => intro e h; exact h
  | cons d rest ih =>
    intro e h
    rw [doneFold]
    exact ih _ (handleDone_inv _ _ _ _ h)

theorem timeoutOne_inv (tm : List (String × Task)) (e : Exec) (tid : String)
    (hmem : tid ∈ e.runningM) (h : Inv tm e) : Inv tm (timeoutOne tm e tid) := by
  have hnc : tid ∉ e.completedL := h.runNotComp tid hmem
  have hncs : List.lookup tid e.wf.step_statuses ≠ some STATUS_COMPLETED := by
    intro hcon
    exact hnc (h.statComp tid hcon)
  refine ⟨?_, ?_, ?_, ?_, ?_, ?_, ?_, ?_⟩
  · exact compStat_setA_of_ne e.wf.step_statuses e.completedL tid STATUS_FAILED
      h.compStat hncs
  · exact statComp_setA_ne e.wf.step_statuses e.completedL tid STATUS_FAILED
      h.statComp (by decide)
  · exact statRun_setA e.wf.step_statuses e.runningM e.runningM tid STATUS_FAILED
      h.statRun (fun m hm _ => hm) (fun hv => absurd hv (by decide))
  · exact h.runNodup
  · exact h.runNotComp
  · exact h.runDeps
  · exact h.compClosed
  · exact dispOk_append tm _ _
      (dispOk_append tm _ _ h.dispOk (not_dispatch_cb _)) (not_dispatch_cancel _)

theorem timeoutFold_inv (tm : List (String × Task)) :
    ∀ (L : List String) (e : Exec), (∀ i ∈ L, i ∈ e.runningM) → Inv tm e →
      Inv tm (timeoutFold tm L e) := by
  intro L
  induction L with
  | nil => intro e _ h; exact h
  | cons tid rest ih =>
    intro e hL h
    rw [timeoutFold]
    refine ih _ ?_ (timeoutOne_inv tm e tid (hL tid (by simp)) h)
    intro i hi
    exact hL i (List.mem_cons_of_mem _ hi)

theorem timeoutFold_runningM (tm : List (String × Task)) :
    ∀ (L : List String) (e : Exec), (timeoutFold tm L e).runningM = e.runningM := by
  intro L
  induction L with
  | nil => intro e; rfl
  | cons tid rest ih =>
    intro e
    rw [timeoutFold]
    exact ih _

theorem timeoutFold_lookup_notmem (tm : List (String × Task)) :
    ∀ (L : List String) (e : Exec) (i : String), i ∉ L →
      List.lookup i (timeoutFold tm L e).wf.step_statuses =
        List.lookup i e.wf.step_statuses := by
  intro L
  induction L with
  | nil => intro e i _; rfl
  | cons tid rest ih =>
    intro e i hi
    have h1 : i ∉ rest := fun hm => hi (List.mem_cons_of_mem _ hm)
    have h2 : i ≠ tid := fun heq => hi (by simp [heq])
    rw [timeoutFold, ih _ i h1]
    show List.lookup i (setA e.wf.step_statuses tid STATUS_FAILED) = _
    rw [lookup_setA_ne _ _ _ _ h2]

theorem timeoutFold_zf (tm : List (String × Task)) :
    ∀ (L : List String) (e : Exec), L.Nodup → ∀ i ∈ L,
      List.lookup i (timeoutFold tm L e).wf.step_statuses = some STATUS_FAILED := by
  intro L
  induction L with
  | nil => intro e _ i hi; cases hi
  | cons tid rest ih =>
    intro e hnd i hi
    have hnd' : tid ∉ rest ∧ rest.Nodup := by simpa using hnd
    rw [timeoutFold]
    rcases List.mem_cons.1 hi with rfl | hi'
    · rw [timeoutFold_lookup_notmem tm rest _ i hnd'.1]
      show List.lookup i (setA e.wf.step_statuses i STATUS_FAILED) = some STATUS_FAILED
      rw [lookup_setA_self]
    · exact ih _ hnd'.2 i hi'

theorem harvest_inv (tm : List (String × Task)) (orc : List (String × ExecOutcome))
    (e : Exec) (h : Inv tm e) :
    Inv tm (harvest tm orc e) ∧ ZombieFailed (harvest tm orc e) := by
  unfold harvest
  split
  next hrm =>
    refine ⟨h, ?_⟩
    intro m hm
    rw [hrm] at hm
    cases hm
  next hrm =>
    have h1 := doneFold_inv tm (orc.filter (fun p => decide (p.1 ∈ e.runningM))) e h
    refine ⟨timeoutFold_inv tm _ _ (fun i hi => hi) h1, ?_⟩
    intro m hm
    rw [timeoutFold_runningM] at hm
    exact timeoutFold_zf tm _ _ h1.runNodup m hm

theorem stallApply_inv (tm : List (String × Task)) (total : Nat) (e : Exec)
    (h : Inv tm e) (hrm : e.runningM = []) :
    Inv tm (stallApply total e) ∧ ZombieFailed (stallApply total e) := by
  refine ⟨⟨?_, ?_, ?_, ?_, ?_, ?_, ?_, ?_⟩, ?_⟩
  · intro m hm
    show List.lookup m (mapVal (fun s => if s = STATUS_PENDING then STATUS_FAILED else s)
      e.wf.step_statuses) = some STATUS_COMPLETED
    rw [lookup_mapVal, h.compStat m hm]
    rfl
  · intro m hm
    have hm' : List.lookup m (mapVal
        (fun s => if s = STATUS_PENDING then STATUS_FAILED else s) e.wf.step_statuses) =
        some STATUS_COMPLETED := hm
    obtain ⟨v, hv, hfv⟩ := lookup_mapVal_eq_some hm'
    show m ∈ e.completedL
    by_cases hp : v = STATUS_PENDING
    · rw [if_pos hp] at hfv
      exact absurd hfv (by decide)
    · rw [if_neg hp] at hfv
      subst hfv
      exact h.statComp m hv
  · intro m hm
    have hm' : List.lookup m (mapVal
        (fun s => if s = STATUS_PENDING then STATUS_FAILED else s) e.wf.step_statuses) =
        some STATUS_RUNNING := hm
    obtain ⟨v, hv, hfv⟩ := lookup_mapVal_eq_some hm'
    show m ∈ e.runningM
    by_cases hp : v = STATUS_PENDING
    · rw [if_pos hp] at hfv
      exact absurd hfv (by decide)
    · rw [if_neg hp] at hfv
      subst hfv
      exact h.statRun m hv
  · exact h.runNodup
  · exact h.runNotComp
  · exact h.runDeps
  · exact h.compClosed
  · exact dispOk_append tm _ _
      (dispOk_append tm _ _ h.dispOk (not_dispatch_save _)) (not_dispatch_cb _)
  · intro m hm
    have hm' : m ∈ e.runningM := hm
    rw [hrm] at hm'
    cases hm'

theorem round_inv (tm : List (String × Task)) (total : Nat)
    (orc : List (String × ExecOutcome)) (e : Exec)
    (hsub : ∀ q ∈ tm, List.lookup q.1 tm = some q.2)
    (hknd : (tm.map Prod.fst).Nodup)
    (h : Inv tm e) (hz : ZombieFailed e) :
    Inv tm (round tm total orc e) ∧ ZombieFailed (round tm total orc e) := by
  unfold round
  dsimp only
  obtain ⟨h1, hz1, hrf1, hcl1, hrm1⟩ :=
    readyPass_inv tm tm e [] hsub hknd (by simp) h hz ⟨List.nodup_nil, by simp⟩
  rcases stallCheck_cases total (readyPass tm e []).2 (readyPass tm e []).1 with
    hsc | ⟨hrm0, hsc⟩
  · rw [hsc]
    split
    next hst => exact ⟨h1, hz1⟩
    next hst =>
      obtain ⟨h2, hcl2⟩ :=
        launchPass_inv tm (readyPass tm e []).2 (readyPass tm e []).1 h1 hrf1
      exact harvest_inv tm orc _ h2
  · rw [hsc]
    split
    next hst => exact stallApply_inv tm total _ h1 hrm0
    next hst => exact absurd rfl hst

theorem execRounds_inv (tm : List (String × Task)) (total : Nat)
    (hsub : ∀ q ∈ tm, List.lookup q.1 tm = some q.2)
    (hknd : (tm.map Prod.fst).Nodup) :
    ∀ (orcs : List (List (String × ExecOutcome))) (e : Exec),
      Inv tm e → ZombieFailed e →
      Inv tm (execRounds tm total orcs e) ∧ ZombieFailed (execRounds tm total orcs e) := by
  intro orcs
  induction orcs with
  | nil => intro e h hz; exact ⟨h, hz⟩
  | cons orc rest ih =>
    intro e h hz
    rw [execRounds]
    split
    · exact ⟨h, hz⟩
    · split
      · obtain ⟨h1, hz1⟩ := round_inv tm total orc e hsub hknd h hz
        exact ih _ h1 hz1
      · exact ⟨h, hz⟩

theorem dispOk_nil (tm : List (String × Task)) : DispOk tm [] := by
  intro ev hev
  cases hev

theorem initExec_inv (tm : List (String × Task)) (wf0 : WorkflowState) (total : Nat)
    (hnodup : (wf0.step_statuses.map Prod.fst).Nodup)
    (hclosed : ∀ q ∈ wf0.step_statuses, q.2 = STATUS_COMPLETED →
      ∀ d ∈ depsOf tm q.1, ∃ r ∈ wf0.step_statuses, r.1 = d ∧ r.2 = STATUS_COMPLETED) :
    Inv tm (initExec wf0 total) ∧ ZombieFailed (initExec wf0 total) := by
  refine ⟨⟨?_, ?_, ?_, ?_, ?_, ?_, ?_, ?_⟩, ?_⟩
  · intro tid htid
    have htid' : tid ∈ completedOf wf0.step_statuses := htid
    obtain ⟨q, hq, hq1, hq2⟩ := completedOf_spec.1 htid'
    have hq' : (tid, STATUS_COMPLETED) ∈ wf0.step_statuses := by
      rw [← hq1, ← hq2]
      exact hq
    have hlook := lookup_eq_of_mem_nodup hnodup hq'
    show List.lookup tid (mapVal (fun s => if s = STATUS_RUNNING then STATUS_PENDING else s)
      wf0.step_statuses) = some STATUS_COMPLETED
    rw [lookup_mapVal, hlook]
    decide
  · intro tid htid
    have htid' : List.lookup tid (mapVal
        (fun s => if s = STATUS_RUNNING then STATUS_PENDING else s) wf0.step_statuses) =
        some STATUS_COMPLETED := htid
    obtain ⟨v, hv, hfv⟩ := lookup_mapVal_eq_some htid'
    by_cases hr : v = STATUS_RUNNING
    · rw [if_pos hr] at hfv
      exact absurd hfv (by decide)
    · rw [if_neg hr] at hfv
      subst hfv
      show tid ∈ completedOf wf0.step_statuses
      exact completedOf_spec.2 ⟨(tid, STATUS_COMPLETED), mem_of_lookup_eq_some hv, rfl, rfl⟩
  · intro tid htid
    have htid' : List.lookup tid (mapVal
        (fun s => if s = STATUS_RUNNING then STATUS_PENDING else s) wf0.step_statuses) =
        some STATUS_RUNNING := htid
    obtain ⟨v, hv, hfv⟩ := lookup_mapVal_eq_some htid'
    by_cases hr : v = STATUS_RUNNING
    · rw [if_pos hr] at hfv
      exact absurd hfv (by decide)
    · rw [if_neg hr] at hfv
      exact absurd hfv hr
  · exact List.nodup_nil
  · intro tid htid
    exact absurd (show tid ∈ ([] : List String) from htid) (by simp)
  · intro tid htid
    exact absurd (show tid ∈ ([] : List String) from htid) (by simp)
  · intro tid htid d hd
    have htid' : tid ∈ completedOf wf0.step_statuses := htid
    obtain ⟨q, hq, hq1, hq2⟩ := completedOf_spec.1 htid'
    obtain ⟨r, hr, hr1, hr2⟩ := hclosed q hq hq2 d (by rw [hq1]; exact hd)
    show d ∈ completedOf wf0.step_statuses
    exact completedOf_spec.2 ⟨r, hr, hr1, hr2⟩
  · exact dispOk_append tm _ _
      (dispOk_append tm _ _ (dispOk_nil tm) (not_dispatch_save _)) (not_dispatch_cb _)
  · intro m hm
    exact absurd (show m ∈ ([] : List String) from hm) (by simp)

theorem initExec_inv_fresh (tm : List (String × Task)) (wf0 : WorkflowState)
    (total : Nat) (ts : List Task)
    (hfresh : wf0.step_statuses = ts.map (fun tk => (tk.id, STATUS_PENDING))) :
    Inv tm (initExec wf0 total) ∧ ZombieFailed (initExec wf0 total) := by
  have hcl : (initExec wf0 total).completedL = [] := by
    show completedOf wf0.step_statuses = []
    rw [hfresh, completedOf_map_pending]
  refine ⟨⟨?_, ?_, ?_, ?_, ?_, ?_, ?_, ?_⟩, ?_⟩
  · intro tid htid
    rw [hcl] at htid
    cases htid
  · intro tid htid
    have htid' : List.lookup tid (mapVal
        (fun s => if s = STATUS_RUNNING then STATUS_PENDING else s) wf0.step_statuses) =
        some STATUS_COMPLETED := htid
    rw [hfresh] at htid'
    obtain ⟨v, hv, hfv⟩ := lookup_mapVal_eq_some htid'
    have hvp : v = STATUS_PENDING := lookup_map_const hv
    subst hvp
    rw [if_neg (show ¬ (STATUS_PENDING = STATUS_RUNNING) by decide)] at hfv
    exact absurd hfv (by decide)
  · intro tid htid
    have htid' : List.lookup tid (mapVal
        (fun s => if s = STATUS_RUNNING then STATUS_PENDING else s) wf0.step_statuses) =
        some STATUS_RUNNING := htid
    rw [hfresh] at htid'
    obtain ⟨v, hv, hfv⟩ := lookup_mapVal_eq_some htid'
    have hvp : v = STATUS_PENDING := lookup_map_const hv
    subst hvp
    rw [if_neg (show ¬ (STATUS_PENDING = STATUS_RUNNING) by decide)] at hfv
    exact absurd hfv (by decide)
  · exact List.nodup_nil
  · intro tid htid
    exact absurd (show tid ∈ ([] : List String) from htid) (by simp)
  · intro tid htid
    exact absurd (show tid ∈ ([] : List String) from htid) (by simp)
  · intro tid htid
    rw [hcl] at htid
    cases htid
  · exact dispOk_append tm _ _
      (dispOk_append tm _ _ (dispOk_nil tm) (not_dispatch_save _)) (not_dispatch_cb _)
  · intro m hm
    exact absurd (show m ∈ ([] : List String) from hm) (by simp)

theorem finalize_dispOk (fs : String → Option String) (tm : List (String × Task))
    (e : Exec) (h : DispOk tm e.events) : DispOk tm (finalize fs tm e).events := by
  unfold finalize
  dsimp only
  exact dispOk_append tm _ _
    (dispOk_append tm _ _ h (not_dispatch_save _)) (not_dispatch_cb _)

/-- C1 (amended): starting from a freshly accepted plan, if a task `x` ends the
run with status `failed` or `skipped`, then no task `t` that transitively
depends on `x` can end the run with status `completed` or `running` (it ends
`skipped`, `failed`, or — in truncated traces — `pending`). -/
theorem skip_propagation_amended (fs : String → Option String)
    (orcs : List (List (String × ExecOutcome))) (wf0 : WorkflowState) (p : TasksOutput)
    (t x : String)
    (hp : wf0.plan = some p) (hacc : wf0.accepted_plan = true)
    (hfresh : wf0.step_statuses = p.tasks.map (fun tk => (tk.id, STATUS_PENDING)))
    (hdep : DependsOn (tasksMapOf p.tasks) t x)
    (hx : List.lookup x (execute_plan fs orcs wf0).1.wf.step_statuses = some STATUS_FAILED ∨
      List.lookup x (execute_plan fs orcs wf0).1.wf.step_statuses = some STATUS_SKIPPED) :
    List.lookup t (execute_plan fs orcs wf0).1.wf.step_statuses ≠ some STATUS_COMPLETED ∧
    List.lookup t (execute_plan fs orcs wf0).1.wf.step_statuses ≠ some STATUS_RUNNING := by
  rw [execute_plan_accepted_eq fs orcs wf0 p hp hacc] at hx ⊢
  obtain ⟨hI, hZ⟩ :=
    initExec_inv_fresh (tasksMapOf p.tasks) wf0 (tasksMapOf p.tasks).length p.tasks hfresh
  obtain ⟨hIF, hZF⟩ := execRounds_inv (tasksMapOf p.tasks) (tasksMapOf p.tasks).length
    (tasksMapOf_self p.tasks) (tasksMapOf_keys_nodup p.tasks) orcs _ hI hZ
  have hst : (execute_planAccepted fs orcs wf0 p).1.wf.step_statuses =
      (execRounds (tasksMapOf p.tasks) (tasksMapOf p.tasks).length orcs
        (initExec wf0 (tasksMapOf p.tasks).length)).wf.step_statuses := rfl
  rw [hst] at hx ⊢
  constructor
  · intro hcomp
    have ht := hIF.statComp t hcomp
    have hchain : x ∈ (execRounds (tasksMapOf p.tasks) (tasksMapOf p.tasks).length orcs
        (initExec wf0 (tasksMapOf p.tasks).length)).completedL := by
      clear hx hcomp
      induction hdep with
      | single h1 => exact hIF.compClosed t ht _ h1
      | tail hab hbc ih => exact hIF.compClosed _ ih _ hbc
    have hxc := hIF.compStat x hchain
    rcases hx with h1 | h1
    · rw [hxc] at h1
      exact absurd (Option.some.inj h1) (by decide)
    · rw [hxc] at h1
      exact absurd (Option.some.inj h1) (by decide)
  · intro hrun
    have htr := hIF.statRun t hrun
    have htf := hZF t htr
    rw [htf] at hrun
    exact absurd (Option.some.inj hrun) (by decide)

/-- C1 witness: in the concrete run where A fails and B depends on A, the
theorem yields that B ends neither `completed` nor `running`. -/
theorem skip_propagation_witness :
    List.lookup "B" (execute_plan noFs [[("A", ExecOutcome.failure "boom")], []]
      (freshWf "s4" planC4tasks)).1.wf.step_statuses ≠ some STATUS_COMPLETED ∧
    List.lookup "B" (execute_plan noFs [[("A", ExecOutcome.failure "boom")], []]
      (freshWf "s4" planC4tasks)).1.wf.step_statuses ≠ some STATUS_RUNNING :=
  skip_propagation_amended noFs [[("A", ExecOutcome.failure "boom")], []]
    (freshWf "s4" planC4tasks) { tasks := planC4tasks, summary := "s" } "B" "A"
    rfl rfl rfl
    (Relation.TransGen.single
      (show "A" ∈ depsOf (tasksMapOf planC4tasks) "B" from by decide))
    (Or.inl (by decide))

/-- C2: every task dispatch happens with all of the task's declared
dependencies already `completed` in the status map at dispatch time, provided
the loaded statuses have duplicate-free keys and are dependency-closed on
their `completed` entries (true of fresh and of consistently persisted
sessions). -/
theorem dependency_ordered_dispatch (fs : String → Option String)
    (orcs : List (List (String × ExecOutcome))) (wf0 : WorkflowState) (p : TasksOutput)
    (hp : wf0.plan = some p) (hacc : wf0.accepted_plan = true)
    (hnodup : (wf0.step_statuses.map Prod.fst).Nodup)
    (hclosed : ∀ q ∈ wf0.step_statuses, q.2 = STATUS_COMPLETED →
      ∀ d ∈ depsOf (tasksMapOf p.tasks) q.1,
        ∃ r ∈ wf0.step_statuses, r.1 = d ∧ r.2 = STATUS_COMPLETED) :
    ∀ ev ∈ (execute_plan fs orcs wf0).1.events, ∀ tid snap,
      ev = Event.dispatch tid snap →
      ∀ d ∈ depsOf (tasksMapOf p.tasks) tid,
        List.lookup d snap = some STATUS_COMPLETED := by
  rw [execute_plan_accepted_eq fs orcs wf0 p hp hacc]
  obtain ⟨hI, hZ⟩ :=
    initExec_inv (tasksMapOf p.tasks) wf0 (tasksMapOf p.tasks).length hnodup hclosed
  obtain ⟨hIF, hZF⟩ := execRounds_inv (tasksMapOf p.tasks) (tasksMapOf p.tasks).length
    (tasksMapOf_self p.tasks) (tasksMapOf_keys_nodup p.tasks) orcs _ hI hZ
  have hfin : DispOk (tasksMapOf p.tasks) (execute_planAccepted fs orcs wf0 p).1.events :=
    finalize_dispOk fs (tasksMapOf p.tasks) _ hIF.dispOk
  exact hfin

/-- C2 witness: in the concrete two-round run of A then B (which depends on
A), the dispatch of B carries a snapshot in which A is `completed`; the
lookup is discharged by the theorem applied to that dispatch event. -/
theorem dependency_ordered_dispatch_witness :
    List.lookup "A" [("A", STATUS_COMPLETED), ("B", STATUS_RUNNING)] =
      some STATUS_COMPLETED :=
  dependency_ordered_dispatch noFs
    [[("A", ExecOutcome.success (Output.ostr "ra"))],
     [("B", ExecOutcome.success (Output.ostr "rb"))]]
    (freshWf "w2" planW2tasks) { tasks := planW2tasks, summary := "s" }
    rfl rfl (by decide) (by decide)
    (Event.dispatch "B" [("A", STATUS_COMPLETED), ("B", STATUS_RUNNING)]) (by decide)
    "B" [("A", STATUS_COMPLETED), ("B", STATUS_RUNNING)] rfl "A" (by decide)

/-- C5 witness: the theorem applied to a concrete resumed session holding a
`running`, a `completed`, a `failed`, a `skipped` and a `pending` task. -/
theorem resume_resets_running_tasks_witness :
    (∃ w : WorkflowState,
      (execute_plan noFs [] wfC5).1.events.head? = some (Event.saveEv w) ∧
      w.step_statuses = resetRunningStatuses wfC5.step_statuses) ∧
    (∀ tid, List.lookup tid wfC5.step_statuses = some STATUS_RUNNING →
      List.lookup tid (resetRunningStatuses wfC5.step_statuses) = some STATUS_PENDING) ∧
    (∀ tid s, (s = STATUS_COMPLETED ∨ s = STATUS_FAILED ∨ s = STATUS_SKIPPED) →
      List.lookup tid wfC5.step_statuses = some s →
      List.lookup tid (resetRunningStatuses wfC5.step_statuses) = some s) :=
  resume_resets_running_tasks noFs [] wfC5 planC5 rfl rfl

end AgentsQ
